import Mathlib

/-!
# Grace interpreter — formal model and verification of spec claims

A shallow embedding of the core of the Grace interpreter: the runtime value
model, the bytecode VM single-step relation (`src/vm.cpp`), the linking step
(`VM::CombineFunctions`), the single-pass compiler (`src/compiler.cpp`)
embedded as a fueled interpreter over the scanner's token stream, and the
dictionary object (`src/objects/grace_dictionary.cpp`).

Conventions used throughout:
  * C++ `std::vector` used as a stack (`push_back`/`back`/`pop_back`) is
    modelled as a Lean `List` whose HEAD is the vector's back (most recent
    element); `std::stack` likewise (head = top).
  * C++ `std::vector` used as a random-access array (the locals list, the
    op/constant pools, the dictionary cells) is modelled as a `List` indexed
    from the front, with `push_back` = append-at-end and `pop_back` =
    `dropLast`.
  * machine integers (`std::int64_t`, `int`) are modelled as `Int`, sizes as
    `Nat`; no arithmetic in the claims under study can overflow 64 bits.
  * operations that are undefined behaviour in the C++ (popping an empty
    vector, out-of-range indexing, `.value()` on an empty optional) are
    mapped to an explicit `stuck` outcome.
-/

namespace Grace

/-- Modelled from the spec: the runtime `Value` variant (`value.hpp` is not
part of the sources under study; spec §3 gives
`Null | Bool | Int(i64) | Float(f64) | Char | String | Object`).  The heap
`Object` variant is not needed by any claim under study and `f64` is idealised
as `ℚ` (no claim depends on floating-point rounding). -/
inductive GValue where
  | null
  | bool (b : Bool)
  | int (i : Int)
  | float (q : ℚ)
  | char (c : Char)
  | str (s : String)
deriving DecidableEq, Repr

/-- Modelled from the spec: `Value::AsBool` (spec §4.5: "Null→false;
Bool→itself; Int/Float→nonzero; Char→non-NUL; String→nonempty"). -/
def GValue.asBool : GValue → Bool
  | .null => false
  | .bool b => b
  | .int i => decide (i ≠ 0)
  | .float q => decide (q ≠ 0)
  | .char c => decide (c ≠ Char.ofNat 0)
  | .str s => !s.isEmpty

/-- Modelled from the spec: `Value::operator==` (spec §3: "Value equality is
structural within a variant; cross-variant equality is defined only for
numeric variants (int↔float promote) and otherwise returns false"). -/
def valueEq : GValue → GValue → Bool
  | .null, .null => true
  | .bool a, .bool b => a == b
  | .int a, .int b => a == b
  | .float a, .float b => a == b
  | .int a, .float b => decide ((a : ℚ) = b)
  | .float a, .int b => decide (a = (b : ℚ))
  | .char a, .char b => a == b
  | .str a, .str b => a == b
  | _, _ => false

/-- The opcode tag (`Grace::VM::Ops`), one constructor per case of the
dispatch switch in `VM::Run`. -/
inductive Ops where
  | Add | Subtract | Multiply | Mod | Divide
  | And | Or
  | Equal | NotEqual | Greater | GreaterEqual | Less | LessEqual
  | Pow | Negate | Not
  | LoadConstant | LoadLocal
  | Pop | PopLocal
  | Print | PrintEmptyLine | PrintLn | PrintTab
  | Call | NativeCall
  | AssignLocal | DeclareLocal
  | Jump | JumpIfFalse
  | Return
  | CastAsInt | CastAsFloat | CastAsBool | CastAsString | CastAsChar
  | CastAsList | CheckType | Dup
  | CreateList | CreateEmptyList | CreateRepeatingList
  | Assert | AssertWithMessage
  | Exit
deriving DecidableEq, Repr

/-- The runtime-error taxonomy (`Grace::VM::InterpretError`, spec §7). -/
inductive InterpretError where
  | AssertionFailed | FunctionNotFound | IncorrectArgCount | IndexOutOfRange
  | InvalidArgument | InvalidIterator | InvalidCast | InvalidOperand
  | InvalidType | ThrownException
deriving DecidableEq, Repr

/-- The per-function record (`Grace::VM::Function`): name, 64-bit name hash,
arity, declaration line, private op list and constant list, and the start
offsets into the global image filled in by `VM::CombineFunctions`. -/
structure VMFunction where
  name : String
  hash : Int
  arity : Nat
  line : Int
  opList : List (Ops × Int) := []
  constantList : List GValue := []
  opIndexStart : Nat := 0
  constantIndexStart : Nat := 0
deriving DecidableEq, Repr

/-- The read-only data `VM::Run` consumes: the spliced global op and constant
lists and the function table keyed by name hash (`m_FullOpList`,
`m_FullConstantList`, `m_FunctionList`). -/
structure VMImage where
  fullOpList : List (Ops × Int)
  fullConstantList : List GValue
  functionList : List (Int × VMFunction)
deriving DecidableEq, Repr

/-- Hash-keyed lookup in the function table (`m_FunctionList.find(hash)`). -/
def VMImage.findFunction (vm : VMImage) (h : Int) : Option VMFunction :=
  (vm.functionList.find? (fun p => p.1 == h)).map Prod.snd

/-- The mutable state of `VM::Run`'s interpreter loop: the operand stack, the
flat locals array, the cursors, the per-function offset stacks and the call
stack.  `valueStack`, `opOffsets`, `constantOffsets`, `callStack` and
`localsOffsets` have their most recent element at the head; `localsList` is
indexed from the front like the C++ vector. -/
structure VMState where
  funcNameHash : Int
  valueStack : List GValue
  localsList : List GValue
  opCurrent : Nat
  constantCurrent : Nat
  opOffsets : List Nat
  constantOffsets : List Nat
  localsOffsets : List Nat
  callStack : List (Int × Int × Int)
deriving DecidableEq, Repr

/-- Outcome of one iteration of the fetch–decode–execute loop. -/
inductive StepOut where
  /-- The loop continues with the given state. -/
  | next (s : VMState)
  /-- `RETURN_ERR()` / `RETURN_ASSERT_FAILED()`: a runtime error of the given
  kind terminates execution. -/
  | errorOut (e : InterpretError)
  /-- `opCurrent` has run past the end of the op list: the loop exits and
  `Run` returns `RuntimeOk`. -/
  | haltOk
  /-- The op's semantics depend on `Value` helpers that are not part of the
  sources under study (the arithmetic/comparison `Handle*` helpers, casts,
  list objects, native functions); no claim under study reaches these. -/
  | unmodelled
  /-- Undefined behaviour in the C++ (empty-vector pop, out-of-range index,
  wrongly-typed constant); unreachable for the compiled programs the
  claims quantify over. -/
  | stuck
deriving DecidableEq, Repr

/-- `Pop(valueStack)` on the head-is-top stack model. -/
def popValue : List GValue → Option (GValue × List GValue)
  | [] => none
  | v :: rest => some (v, rest)

/-- The argument-copy loop of the `Ops::Call` case:
`for (i = 0; i < arity; i++) locals[arity - i - 1 + base] = Pop(stack)` —
iteration `i` pops the stack top into frame slot `arity - i - 1`, so the
resulting frame (slots `0 … arity-1` in order) is the reverse of the popped
prefix.  Returns `(frame, remaining stack)`; `none` if the stack is too
short (UB in the C++). -/
def popCallArgs : Nat → List GValue → Option (List GValue × List GValue)
  | 0, stack => some ([], stack)
  | _ + 1, [] => none
  | n + 1, v :: rest =>
      match popCallArgs n rest with
      | none => none
      | some (frame, stack) => some (frame ++ [v], stack)

/-- One iteration of `VM::Run`'s fetch–decode–execute loop (vm.cpp, the
`while (opCurrent < m_FullOpList.size())` body): fetch `(op, line)` at
`opCurrent++` and dispatch. -/
def vmStep (vm : VMImage) (s : VMState) : StepOut :=
  match vm.fullOpList.get? s.opCurrent with
  | none => .haltOk
  | some (op, line) =>
    let s := { s with opCurrent := s.opCurrent + 1 }
    match op with
    | .And =>
      -- PopLastTwo: c1 = second from top, c2 = top; push c1.AsBool() && c2.AsBool()
      match s.valueStack with
      | c2 :: c1 :: rest =>
          .next { s with valueStack := .bool (c1.asBool && c2.asBool) :: rest }
      | _ => .stuck
    | .Or =>
      match s.valueStack with
      | c2 :: c1 :: rest =>
          .next { s with valueStack := .bool (c1.asBool || c2.asBool) :: rest }
      | _ => .stuck
    | .Not =>
      match s.valueStack with
      | c :: rest => .next { s with valueStack := .bool (!c.asBool) :: rest }
      | _ => .stuck
    | .LoadConstant =>
      match vm.fullConstantList.get? s.constantCurrent with
      | some v => .next { s with
          valueStack := v :: s.valueStack
          constantCurrent := s.constantCurrent + 1 }
      | none => .stuck
    | .LoadLocal =>
      match vm.fullConstantList.get? s.constantCurrent, s.localsOffsets with
      | some (.int id), base :: _ =>
          if id < 0 then .stuck else
          match s.localsList.get? (id.toNat + base) with
          | some v => .next { s with
              valueStack := v :: s.valueStack
              constantCurrent := s.constantCurrent + 1 }
          | none => .stuck
      | _, _ => .stuck
    | .Pop =>
      match s.valueStack with
      | _ :: rest => .next { s with valueStack := rest }
      | [] => .stuck
    | .PopLocal =>
      match s.localsList with
      | [] => .stuck
      | _ => .next { s with localsList := s.localsList.dropLast }
    | .Print =>
      match s.valueStack with
      | _ :: _ => .next s
      | [] => .stuck
    | .PrintLn =>
      match s.valueStack with
      | _ :: _ => .next s
      | [] => .stuck
    | .PrintEmptyLine => .next s
    | .PrintTab => .next s
    | .Call =>
      match vm.fullConstantList.get? s.constantCurrent with
      | some (.int calleeNameHash) =>
        let s := { s with constantCurrent := s.constantCurrent + 1 }
        match vm.findFunction calleeNameHash with
        | none => .errorOut .FunctionNotFound
        | some calleeFunc =>
          match vm.fullConstantList.get? s.constantCurrent with
          | some (.int numArgsGiven) =>
            let s := { s with constantCurrent := s.constantCurrent + 1 }
            if numArgsGiven ≠ (calleeFunc.arity : Int) then
              .errorOut .IncorrectArgCount
            else
              -- localsOffsets.push(localsList.size()); resize(+arity); copy args
              let newBase := s.localsList.length
              match popCallArgs calleeFunc.arity s.valueStack with
              | none => .stuck
              | some (frame, restStack) =>
                .next { s with
                  localsOffsets := newBase :: s.localsOffsets
                  localsList := s.localsList ++ frame
                  callStack := (s.funcNameHash, calleeNameHash, line) :: s.callStack
                  valueStack :=
                    .int (s.constantCurrent : Int) :: .int (s.opCurrent : Int) :: restStack
                  opCurrent := calleeFunc.opIndexStart
                  constantCurrent := calleeFunc.constantIndexStart
                  opOffsets := calleeFunc.opIndexStart :: s.opOffsets
                  constantOffsets := calleeFunc.constantIndexStart :: s.constantOffsets
                  funcNameHash := calleeNameHash }
          | _ => .stuck
      | _ => .stuck
    | .NativeCall => .unmodelled
    | .AssignLocal =>
      match s.valueStack, vm.fullConstantList.get? s.constantCurrent, s.localsOffsets with
      | value :: rest, some (.int id), base :: _ =>
          if id < 0 then .stuck else
          let idx := id.toNat + base
          if idx < s.localsList.length then
            .next { s with
              valueStack := rest
              localsList := s.localsList.set idx value
              constantCurrent := s.constantCurrent + 1 }
          else .stuck
      | _, _, _ => .stuck
    | .DeclareLocal =>
      .next { s with localsList := s.localsList ++ [.null] }
    | .Jump =>
      match vm.fullConstantList.get? s.constantCurrent,
            vm.fullConstantList.get? (s.constantCurrent + 1),
            s.opOffsets, s.constantOffsets with
      | some (.int constIdx), some (.int opIdx), opOff :: _, constOff :: _ =>
          if constIdx < 0 ∨ opIdx < 0 then .stuck else
          .next { s with
            opCurrent := opIdx.toNat + opOff
            constantCurrent := constIdx.toNat + constOff }
      | _, _, _, _ => .stuck
    | .JumpIfFalse =>
      match vm.fullConstantList.get? s.constantCurrent,
            vm.fullConstantList.get? (s.constantCurrent + 1),
            s.opOffsets, s.constantOffsets, s.valueStack with
      | some (.int constIdx), some (.int opIdx), opOff :: _, constOff :: _,
        condition :: rest =>
          if constIdx < 0 ∨ opIdx < 0 then .stuck else
          if condition.asBool then
            .next { s with
              valueStack := rest
              constantCurrent := s.constantCurrent + 2 }
          else
            .next { s with
              valueStack := rest
              opCurrent := opIdx.toNat + opOff
              constantCurrent := constIdx.toNat + constOff }
      | _, _, _, _, _ => .stuck
    | .Return =>
      match s.valueStack, s.callStack with
      | returnValue :: .int cc :: .int oc :: rest, frame :: framesRest =>
          if cc < 0 ∨ oc < 0 then .stuck else
          match s.localsOffsets, s.opOffsets, s.constantOffsets with
          | _ :: localsOffRest, _ :: opOffRest, _ :: constOffRest =>
              .next { s with
                funcNameHash := frame.1
                callStack := framesRest
                constantCurrent := cc.toNat
                opCurrent := oc.toNat
                valueStack := returnValue :: rest
                localsOffsets := localsOffRest
                opOffsets := opOffRest
                constantOffsets := constOffRest }
          | _, _, _ => .stuck
      | _, _ => .stuck
    | .CastAsBool =>
      match s.valueStack with
      | v :: rest => .next { s with valueStack := .bool v.asBool :: rest }
      | [] => .stuck
    | .Assert =>
      match s.valueStack with
      | condition :: rest =>
          if condition.asBool then .next { s with valueStack := rest }
          else .errorOut .AssertionFailed
      | [] => .stuck
    | .AssertWithMessage =>
      match s.valueStack, vm.fullConstantList.get? s.constantCurrent with
      | condition :: rest, some (.str _) =>
          if condition.asBool then
            .next { s with valueStack := rest, constantCurrent := s.constantCurrent + 1 }
          else .errorOut .AssertionFailed
      | _, _ => .stuck
    | .Exit =>
      .next { s with opCurrent := vm.fullOpList.length }
    | _ => .unmodelled

/-! ## Linking (`VM::CombineFunctions`) and the run driver -/

/-- The state `VM::CombineFunctions` consumes: the function table built by
`VM::AddFunction` during compilation, keyed by name hash, in insertion order
(the C++ `unordered_map` iterates in an unspecified order; no claim under
study depends on the splice order of non-`main` functions). -/
structure PreVM where
  functionList : List (Int × VMFunction)
deriving DecidableEq, Repr

/-- `VM::CombineFunctions` (vm.cpp): look up `hash("main")`; if absent, print
an error and return `false` (here: `.error msg`).  Otherwise splice every
function's op list and constant list into the two global vectors, `main`
first, recording each non-`main` function's start offsets. -/
def combineFunctions (hashFn : String → Int) (pre : PreVM) : Except String VMImage :=
  let mainHash := hashFn "main"
  match (pre.functionList.find? (fun p => p.1 == mainHash)).map Prod.snd with
  | none => .error "Could not find `main` function in file, execution cannot proceed."
  | some mainFunc =>
    let init : List (Ops × Int) × List GValue × List (Int × VMFunction) :=
      (mainFunc.opList, mainFunc.constantList, [])
    let res := pre.functionList.foldl
      (fun (acc : List (Ops × Int) × List GValue × List (Int × VMFunction)) nf =>
        let (fullOps, fullConsts, funcs) := acc
        if nf.1 == mainHash then (fullOps, fullConsts, funcs ++ [nf])
        else
          let func := { nf.2 with
            opIndexStart := fullOps.length
            constantIndexStart := fullConsts.length }
          (fullOps ++ func.opList, fullConsts ++ func.constantList,
            funcs ++ [(nf.1, func)]))
      init
    .ok { fullOpList := res.1, fullConstantList := res.2.1, functionList := res.2.2 }

/-- `VM::Run`'s loop, iterated with fuel (the C++ loop runs unboundedly). -/
def vmRun (vm : VMImage) : Nat → VMState → StepOut
  | 0, s => .next s
  | fuel + 1, s =>
    match vmStep vm s with
    | .next s2 => vmRun vm fuel s2
    | out => out

/-- The overall outcome of handing a compiled function table to the VM. -/
inductive ProgramOutcome where
  /-- Linking failed: the reported error message; no opcode was executed. -/
  | linkFailed (msg : String)
  /-- Linking succeeded and the VM ran, producing the given outcome. -/
  | ran (out : StepOut)
deriving DecidableEq, Repr

/-- The initial `VM::Run` state (vm.cpp lines 164–183): cursors 0, offset
stacks seeded with `main`'s start offsets, `localsOffsets = [0]`, call stack
seeded with the `(hash "file", hash "main", 1)` frame. -/
def initialVMState (hashFn : String → Int) (mainFunc : VMFunction) : VMState :=
  { funcNameHash := hashFn "main"
    valueStack := []
    localsList := []
    opCurrent := 0
    constantCurrent := 0
    opOffsets := [mainFunc.opIndexStart]
    constantOffsets := [mainFunc.constantIndexStart]
    localsOffsets := [0]
    callStack := [(hashFn "file", hashFn "main", 1)] }

/-- Modelled from the spec: the driver that hands the compiled functions to
the VM (its call site lives outside the sources under study; spec §4.3: "If
`main` is not present, linking fails and execution does not start").  On
link failure the VM loop is never entered. -/
def runProgram (hashFn : String → Int) (pre : PreVM) (fuel : Nat) : ProgramOutcome :=
  match combineFunctions hashFn pre with
  | .error msg => .linkFailed msg
  | .ok vm =>
    match vm.findFunction (hashFn "main") with
    | none => .ran .stuck
    | some mainFunc => .ran (vmRun vm fuel (initialVMState hashFn mainFunc))

/-- Concrete one-op image for exercising `AssignLocal`: slot 0, base 0. -/
def c1Image : VMImage :=
  { fullOpList := [(.AssignLocal, 1)]
    fullConstantList := [.int 0]
    functionList := [] }

/-- Concrete state for `c1Image`: the value `42` on top of the stack, one
declared local. -/
def c1State : VMState :=
  { funcNameHash := 0
    valueStack := [.int 42]
    localsList := [.null]
    opCurrent := 0
    constantCurrent := 0
    opOffsets := [0]
    constantOffsets := [0]
    localsOffsets := [0]
    callStack := [] }

/-- Concrete image for the C3 witness: `main` (hash 1) calls `foo` (hash 2,
arity 2) with arguments `10`, `20`. -/
def c3Image : VMImage :=
  { fullOpList := [(.Call, 3), (.Return, 9)]
    fullConstantList := [.int 2, .int 2]
    functionList :=
      [ (1, { name := "main", hash := 1, arity := 0, line := 1 })
      , (2, { name := "foo", hash := 2, arity := 2, line := 8
              opIndexStart := 1, constantIndexStart := 2 }) ] }

/-- Concrete entry state for `c3Image`. -/
def c3State : VMState :=
  { funcNameHash := 1
    valueStack := [.int 20, .int 10]
    localsList := []
    opCurrent := 0
    constantCurrent := 0
    opOffsets := [0]
    constantOffsets := [0]
    localsOffsets := [0]
    callStack := [(0, 1, 1)] }

/-! ## The dictionary object (`objects/grace_dictionary.cpp`)

The C++ keeps two parallel arrays: `m_Data` (a vector of `Value`, holding a
`GraceKeyValuePair` object in each occupied slot and `Null` elsewhere) and
`m_CellStates` (`NeverUsed | Occupied | Tombstone`), plus the entry count
`m_Size`.  The parallel pair is fused here into one list of cells; an
`occupied` cell carries the key-value pair, any other cell corresponds to a
`Null` in `m_Data`.  The hasher `m_Hasher` (a `std::hash` specialisation for
`Value`, outside the sources under study) is a parameter `hashFn`; key
comparison is the `Value` equality `valueEq`. -/

/-- One slot of the open-addressing table (`m_Data[i]` + `m_CellStates[i]`). -/
inductive DictCell where
  | neverUsed
  | tombstone
  | occupied (key value : GValue)
deriving DecidableEq, Repr

/-- Does the cell state equal `CellState::Occupied`? -/
def DictCell.isOcc : DictCell → Bool
  | .occupied _ _ => true
  | _ => false

/-- The `GraceDictionary` object: backing table and entry count `m_Size`. -/
structure GraceDictionary where
  cells : List DictCell
  mSize : Nat
deriving DecidableEq, Repr

/-- `GraceDictionary::GraceDictionary()`: a backing table of
`s_InitialCapacity = 8` never-used cells and `m_Size = 0`. -/
def GraceDictionary.empty : GraceDictionary :=
  { cells := List.replicate 8 .neverUsed, mSize := 0 }

/-- `GraceDictionary::AsBool`: `return !m_Data.empty();` — it tests the
BACKING ARRAY for emptiness, not the entry count `m_Size`. -/
def GraceDictionary.asBool (d : GraceDictionary) : Bool :=
  !d.cells.isEmpty

/-- The key-value pairs held in a table, in slot order
(`GraceDictionary::ToVector` collects exactly the occupied slots). -/
def dictPairs (cells : List DictCell) : List (GValue × GValue) :=
  cells.filterMap fun c =>
    match c with
    | .occupied k v => some (k, v)
    | _ => none

/-- The number of occupied slots. -/
def occCount (cells : List DictCell) : Nat :=
  (cells.filter DictCell.isOcc).length

/-- The `if (i == m_Data.size()) i = 0;` wrap at the top of each probe-loop
iteration. -/
def wrapIdx (n i : Nat) : Nat := if i = n then 0 else i

/-- The linear-probe loop inside `GraceDictionary::Insert`
(`for (auto i = index + 1; ; ++i)`): wrap `i` at the table size; an occupied
cell whose key equals the probe key returns `false` with the table
unchanged; any other occupied cell continues; the first non-occupied cell
receives the new pair (returning `true`).  The C++ loop is unbounded;
`fuel` bounds it here, and under the table invariant the loop always stops
within `cells.length` iterations. -/
def insertProbe (key value : GValue) : Nat → Nat → List DictCell →
    Option (Bool × List DictCell)
  | 0, _, _ => none
  | fuel + 1, i, cells =>
    let j := wrapIdx cells.length i
    match cells.get? j with
    | none => none
    | some (.occupied k _) =>
        if valueEq k key then some (false, cells)
        else insertProbe key value fuel (j + 1) cells
    | some _ => some (true, cells.set j (.occupied key value))

/-- The placement step of `GraceDictionary::Rehash` for one surviving pair:
place at `hash % size` if never-used, otherwise scan cyclically for the
first never-used cell (the C++ first checks the home slot, then runs
`for (auto i = index + 1; ; ++i)` — the unified scan starting at the home
slot has identical behaviour since the home slot is in range). -/
def rehashPlace (key value : GValue) : Nat → Nat → List DictCell →
    Option (List DictCell)
  | 0, _, _ => none
  | fuel + 1, i, cells =>
    let j := wrapIdx cells.length i
    match cells.get? j with
    | none => none
    | some .neverUsed => some (cells.set j (.occupied key value))
    | some _ => rehashPlace key value fuel (j + 1) cells

/-- `GraceDictionary::Rehash`: collect the occupied pairs (`ToVector`), clear
every slot to never-used (`std::fill`), and re-place each pair by hash with
linear probing. -/
def rehash (hashFn : GValue → Nat) (cells : List DictCell) :
    Option (List DictCell) :=
  (dictPairs cells).foldlM
    (fun cs kv =>
      rehashPlace kv.1 kv.2 cs.length (hashFn kv.1 % cs.length) cs)
    (List.replicate cells.length DictCell.neverUsed)

/-- `GraceDictionary::Insert` after the growth check: compute
`index = hash(key) % size`; a never-used or tombstone home slot receives the
pair immediately (`m_Size++`, return `true`); an occupied home slot with an
equal key returns `false`; otherwise the linear probe `insertProbe` runs
from `index + 1`. -/
def insertAfterGrow (hashFn : GValue → Nat) (key value : GValue)
    (d : GraceDictionary) : Option (Bool × GraceDictionary) :=
  let n := d.cells.length
  let index := hashFn key % n
  match d.cells.get? index with
  | none => none
  | some (.occupied k _) =>
      if valueEq k key then some (false, d)
      else
        match insertProbe key value n (index + 1) d.cells with
        | none => none
        | some (flag, cs) =>
            some (flag,
              { cells := cs, mSize := if flag then d.mSize + 1 else d.mSize })
  | some _ =>
      some (true,
        { cells := d.cells.set index (.occupied key value)
          mSize := d.mSize + 1 })

/-- `GraceDictionary::Insert`: if the fullness `m_Size / m_Data.size()`
exceeds the grow factor `0.75` (the float comparison is modelled exactly as
`4 * m_Size > 3 * size`; both counts are far below the range where the
float division could blur the comparison), double the table (`resize` pads
with never-used cells) and `Rehash`, then insert.  `none` marks the
unreachable out-of-fuel/out-of-range paths (UB or divergence in the C++). -/
def GraceDictionary.insert (hashFn : GValue → Nat) (key value : GValue)
    (d : GraceDictionary) : Option (Bool × GraceDictionary) :=
  if 4 * d.mSize > 3 * d.cells.length then
    match rehash hashFn (d.cells ++ List.replicate d.cells.length .neverUsed) with
    | some cs => insertAfterGrow hashFn key value { cells := cs, mSize := d.mSize }
    | none => none
  else insertAfterGrow hashFn key value d

/-! ## Claim C10 — probe geometry

The probe loops visit the table positions `(start + s) % n` for
`s = 0, 1, 2, …`; `walk` names that sequence and the following lemmas
relate it to the loop's `wrapIdx` stepping. -/

/-- Position visited at step `s` of a cyclic scan starting at `start`. -/
def walk (n start s : Nat) : Nat := (start + s) % n

/-- Is the cell at position `p` occupied? -/
def occAt (cells : List DictCell) (p : Nat) : Bool :=
  ((cells.get? p).getD .neverUsed).isOcc

/-! ## Claim C10 — the table invariant

Every dictionary reachable through the exposed operations (fresh
construction and `Insert`; the sources under study define no removal, so no
`Tombstone` is ever written) satisfies `DictInv`: the probe-chain property
of linear-probing tables, size bookkeeping, and the capacity floor of 8. -/

/-- The probe-chain property: every occupied slot `p` holding key `k` is
reachable from `k`'s home slot `hash(k) % n` by a scan that crosses only
occupied slots. -/
def chainP (hashFn : GValue → Nat) (cells : List DictCell) : Prop :=
  ∀ p k v, cells.get? p = some (.occupied k v) →
    ∀ s, s < (p + cells.length - hashFn k % cells.length) % cells.length →
      occAt cells (walk cells.length (hashFn k % cells.length) s) = true

/-- The reachable-state invariant of `GraceDictionary`. -/
structure DictInv (hashFn : GValue → Nat) (d : GraceDictionary) : Prop where
  capacity8 : 8 ≤ d.cells.length
  sizeEq : d.mSize = occCount d.cells
  sizeLt : d.mSize < d.cells.length
  noTomb : ∀ p, d.cells.get? p ≠ some .tombstone
  chain : chainP hashFn d.cells

/-- Does the key-equality probe loop stop at this cell?  (`true` for an
equal-key occupied cell, a non-occupied cell, or an out-of-range read.) -/
def probeStops (key : GValue) : Option DictCell → Bool
  | some (.occupied k _) => valueEq k key
  | _ => true

/-- Does the rehash placement loop stop at this cell?  (Only at a
never-used cell or an out-of-range read.) -/
def rehashStops : Option DictCell → Bool
  | some .neverUsed => true
  | none => true
  | _ => false

/-- Does the table hold a pair whose key compares equal to the probe key? -/
def hasKeyB (key : GValue) (cells : List DictCell) : Bool :=
  (dictPairs cells).any fun kv => valueEq kv.1 key

/-! The growth path: `Rehash` re-establishes the probe-chain invariant and
preserves the stored pairs. -/

/-- No slot is a tombstone (no removal exists in the sources under study, so
this holds for every reachable table). -/
def noTombP (cells : List DictCell) : Prop :=
  ∀ p, cells.get? p ≠ some .tombstone

/-! ## The compiler (`compiler.cpp`) embedded over the scanner's token stream

The scanner is out of scope (spec §1): the compiler consumes a list of
tokens, and an exhausted list behaves as a scanner that keeps producing
`EndOfFile`.  Diagnostics are recorded as plain message strings (the C++
source-excerpt/caret rendering is presentation only); the C++ quotes some
names with apostrophes in messages, rendered here with backticks.
`std::unordered_map` tables (`m_Locals`, the VM's `m_FunctionList`) are
modelled as association lists in insertion order; the compiler only inserts
fresh keys, looks up, clears, and erases, so the iteration-order difference
is not observable in the claims under study.  A `stuck` flag models C++
undefined behaviour (`.value()` on an empty optional), the
`GRACE_NOT_IMPLEMENTED()` abort, and fuel exhaustion of the embedded
loops. -/

/-- Modelled from the spec: the scanner's token types (every type the
compiler inspects). -/
inductive TokenType where
  | And | Or | Assert | Break | By | Class | Colon | Comma | Dot | DotDot | Else
  | End | EndOfFile | Equal | Error | Final | For | Func | Identifier | If
  | In | Null | Print | PrintLn | Return | Semicolon | This | Var | While
  | True | False | Integer | Double | String | Char
  | LeftParen | RightParen
  | Bang | BangEqual | EqualEqual | GreaterThan | GreaterEqual | LessThan
  | LessEqual | Minus | Mod | Plus | Slash | Star | StarStar
  | IntIdent | FloatIdent | BoolIdent | StringIdent | CharIdent | InstanceOf
deriving DecidableEq, Repr

/-- Modelled from the spec: a scanner token — type, text, line, column,
length (spec §1); for an `Error` token the text holds its error message. -/
structure Token where
  type : TokenType
  text : String
  line : Int := 1
  column : Int := 1
  length : Int := 1
deriving DecidableEq, Repr

/-- The token a scanner yields past the end of input. -/
def eofToken : Token := { type := .EndOfFile, text := "" }

/-- `Compiler::Context` (compiler.cpp uses `TopLevel`, `Function`, `Loop`). -/
inductive CompilerContext where
  | topLevel | function | loop
deriving DecidableEq, Repr

/-- Diagnostic severity (`LogLevel`). -/
inductive LogLevel where
  | error | warning
deriving DecidableEq, Repr

/-- The compiler's state: the token plumbing and latches of the `Compiler`
class, plus the parts of the `VM` object the compiler drives during
emission (the per-function records and the last-added-function cursor). -/
structure CState where
  tokens : List Token
  current : Option Token := none
  previous : Option Token := none
  context : CompilerContext := .topLevel
  locals : List (String × Bool × Int) := []
  panicMode : Bool := false
  hadError : Bool := false
  reported : List String := []
  warned : List String := []
  suppressed : Nat := 0
  functionHadReturn : Bool := false
  shouldNotPopValue : Bool := false
  breakJumpNeedsIndexes : Bool := false
  breakIdxPairs : List (List (Int × Int)) := []
  functions : List (Int × VMFunction) := []
  lastFunctionHash : Option Int := none
  hashFn : String → Int
  verbose : Bool := false
  stuck : Bool := false

/-- The previous token, defaulting to `EndOfFile` (reading `m_Previous` when
it is empty is UB in the C++; no reachable path in the claims does so). -/
def CState.prev (s : CState) : Token := s.previous.getD eofToken

/-- The current token, defaulting likewise. -/
def CState.cur (s : CState) : Token := s.current.getD eofToken

/-- `Scanner::ScanToken` as seen through the token list. -/
def CState.scanToken (s : CState) : Token × CState :=
  match s.tokens with
  | [] => (eofToken, s)
  | t :: ts => (t, { s with tokens := ts })

/-- `Compiler::Message` (compiler.cpp): an error during panic mode is
swallowed (counted here); otherwise the message is recorded, an error arms
panic mode and sets the had-error flag.  Error tokens report their own
scanner message. -/
def message (s : CState) (tok : Option Token) (msg : String) (level : LogLevel) :
    CState :=
  match level with
  | .error =>
    if s.panicMode then { s with suppressed := s.suppressed + 1 }
    else
      match tok with
      | none => { s with stuck := true }
      | some t =>
          let rendered := if t.type = .Error then t.text else msg
          { s with panicMode := true, reported := s.reported ++ [rendered]
                   hadError := true }
  | .warning =>
      match tok with
      | none => { s with stuck := true }
      | some _ => { s with warned := s.warned ++ [msg] }

/-- `Compiler::MessageAtCurrent`. -/
def messageAtCurrent (msg : String) (level : LogLevel) (s : CState) : CState :=
  message s s.current msg level

/-- `Compiler::MessageAtPrevious`. -/
def messageAtPrevious (msg : String) (level : LogLevel) (s : CState) : CState :=
  message s s.previous msg level

/-- `Compiler::Advance`: previous ← current, pull the next token, report an
error token immediately. -/
def advance (s : CState) : CState :=
  let (t, s) := s.scanToken
  let s := { s with previous := s.current, current := some t }
  if t.type = .Error then messageAtCurrent "Unexpected token" .error s else s

/-- `Compiler::Check`. -/
def check (s : CState) (t : TokenType) : Bool :=
  match s.current with
  | some tok => tok.type == t
  | none => false

/-- `Compiler::Match`. -/
def matchTok (t : TokenType) (s : CState) : Bool × CState :=
  if check s t then (true, advance s) else (false, s)

/-- `Compiler::Consume`. -/
def consume (t : TokenType) (msg : String) (s : CState) : CState :=
  match s.current with
  | none => { s with stuck := true }
  | some tok => if tok.type = t then advance s else messageAtCurrent msg .error s

/-- Is the token type one of `Synchronize`'s stop keywords? -/
def isSyncKeyword : TokenType → Bool
  | .Class | .Func | .Final | .For | .If | .While | .Print | .PrintLn
  | .Return | .Var => true
  | _ => false

/-- The loop of `Compiler::Synchronize`. -/
def syncLoop : Nat → CState → CState
  | 0, s => { s with stuck := true }
  | fuel + 1, s =>
    match s.current with
    | none => { s with stuck := true }
    | some cur =>
      if cur.type = .EndOfFile then s
      else if s.prev.type = .Semicolon ∧ s.previous.isSome then s
      else if isSyncKeyword cur.type then s
      else syncLoop fuel (advance s)

/-- `Compiler::Synchronize`: clear panic mode and skip to a statement
boundary.  Each iteration that does not stop consumes one token, so
`tokens.length + 2` fuel always suffices. -/
def synchronize (s : CState) : CState :=
  syncLoop (s.tokens.length + 2) { s with panicMode := false }

/-- `IsKeyword` (compiler.cpp): the keyword spelling for the token types the
expression parser rejects. -/
def isKeywordText : TokenType → Option String
  | .And => some "and"
  | .Class => some "class"
  | .End => some "end"
  | .Final => some "final"
  | .For => some "for"
  | .Func => some "func"
  | .If => some "if"
  | .Or => some "or"
  | .Print => some "print"
  | .PrintLn => some "println"
  | .Return => some "return"
  | .Var => some "var"
  | .While => some "while"
  | _ => none

/-- `IsOperator` (compiler.cpp). -/
def isOperator : TokenType → Bool
  | .Colon | .Semicolon | .RightParen | .Comma | .Dot | .Plus | .Slash
  | .Star | .StarStar | .BangEqual | .Equal | .EqualEqual | .LessThan
  | .GreaterThan | .LessEqual | .GreaterEqual => true
  | _ => false

/-- `IsLiteral` (compiler.cpp). -/
def isLiteral (t : Token) : Bool :=
  match t.type with
  | .True | .False | .Integer | .Double | .String | .Char => true
  | _ => false

/-- `IsTypeIdent` (compiler.cpp). -/
def isTypeIdent (t : Token) : Bool :=
  match t.type with
  | .IntIdent | .FloatIdent | .BoolIdent | .StringIdent | .CharIdent => true
  | _ => false

/-- The cast op for a type-ident token (`s_CastOps`). -/
def castOpFor : TokenType → Ops
  | .IntIdent => .CastAsInt
  | .FloatIdent => .CastAsFloat
  | .BoolIdent => .CastAsBool
  | .StringIdent => .CastAsString
  | _ => .CastAsChar

/-- `TryParseInt` / `std::stoll` on a token's text (the numeric lexeme
grammar is the scanner's concern, out of scope; decimal integers parse
exactly). -/
def parseIntToken (text : String) : Option Int := text.toInt?

/-- `TryParseDouble` / `std::stod`, idealised over ℚ; only integral lexemes
are modelled (no claim under study involves a float literal). -/
def parseDoubleToken (text : String) : Option ℚ :=
  (text.toInt?).map fun i => (i : ℚ)

/-! The emission interface the compiler drives on the VM object.  `PushOp`,
`PushConstant`, `GetNumOps`, `GetNumConstants`, `SetConstantAtIndex` and
`GetLastFunctionName` are declared in `vm.hpp`, which is not part of the
sources under study; they are modelled from the spec (§4.2: the compiler
"emits opcodes + constants into the *current* function record", the record
of the last function added by `VM::AddFunction`). -/

/-- Update the function record with the given hash. -/
def CState.updateFunction (s : CState) (h : Int) (f : VMFunction → VMFunction) :
    CState :=
  { s with functions := s.functions.map fun nf =>
      if nf.1 == h then (nf.1, f nf.2) else nf }

/-- The record of the last function added, if any. -/
def CState.lastFunction (s : CState) : Option VMFunction :=
  match s.lastFunctionHash with
  | none => none
  | some h => (s.functions.find? (fun p => p.1 == h)).map Prod.snd

/-- Modelled from the spec: `VM::PushOp` — append `(op, line)` to the
current function's op list (UB before any function exists). -/
def pushOp (op : Ops) (line : Int) (s : CState) : CState :=
  match s.lastFunctionHash with
  | none => { s with stuck := true }
  | some h =>
      if (s.functions.find? (fun p => p.1 == h)).isSome then
        s.updateFunction h fun f => { f with opList := f.opList ++ [(op, line)] }
      else { s with stuck := true }

/-- Modelled from the spec: `VM::PushConstant`. -/
def pushConstant (v : GValue) (s : CState) : CState :=
  match s.lastFunctionHash with
  | none => { s with stuck := true }
  | some h =>
      if (s.functions.find? (fun p => p.1 == h)).isSome then
        s.updateFunction h fun f =>
          { f with constantList := f.constantList ++ [v] }
      else { s with stuck := true }

/-- Modelled from the spec: `VM::GetNumOps` for the current function. -/
def getNumOps (s : CState) : Nat :=
  match s.lastFunction with
  | some f => f.opList.length
  | none => 0

/-- Modelled from the spec: `VM::GetNumConstants` for the current function. -/
def getNumConstants (s : CState) : Nat :=
  match s.lastFunction with
  | some f => f.constantList.length
  | none => 0

/-- Modelled from the spec: `VM::SetConstantAtIndex` — backpatch a constant
slot of the current function (the jump-patch idiom, spec §4.2). -/
def setConstantAtIndex (idx : Int) (v : GValue) (s : CState) : CState :=
  match s.lastFunctionHash with
  | none => { s with stuck := true }
  | some h =>
      s.updateFunction h fun f =>
        { f with constantList :=
            if 0 ≤ idx then f.constantList.set idx.toNat v else f.constantList }

/-- `VM::AddFunction` (vm.cpp): hash the name, `try_emplace` the record,
remember the hash of the last function added. -/
def addFunction (name : String) (line : Int) (arity : Nat) (s : CState) :
    Bool × CState :=
  let h := s.hashFn name
  if (s.functions.find? (fun p => p.1 == h)).isSome then (false, s)
  else
    (true,
     { s with
        functions := s.functions ++
          [(h, { name := name, hash := h, arity := arity, line := line })]
        lastFunctionHash := some h })

/-- Modelled from the spec: `VM::GetLastFunctionName`. -/
def lastFunctionName (s : CState) : Option String :=
  (s.lastFunction).map VMFunction.name

/-- `m_Locals.find(name)` on the association-list model. -/
def localsLookup (s : CState) (name : String) : Option (Bool × Int) :=
  (s.locals.find? (fun p => p.1 == name)).map Prod.snd

/-- `m_Locals.insert(...)`: a no-op when the key is already present
(`std::unordered_map::insert` semantics). -/
def localsInsert (name : String) (isFinal : Bool) (id : Int) (s : CState) :
    CState :=
  if (localsLookup s name).isSome then s
  else { s with locals := s.locals ++ [(name, isFinal, id)] }

/-- The scope-exit diff (`for it = m_Locals.begin() ... EmitOp(PopLocal)`):
emit one `PopLocal` per local not present in the snapshot and erase it. -/
def popScopeLocals (startNames : List String) (line : Int) (s : CState) :
    CState :=
  let doomed := s.locals.filter fun p => !startNames.contains p.1
  let s := doomed.foldl (fun s _ => pushOp .PopLocal line s) s
  { s with locals := s.locals.filter fun p => startNames.contains p.1 }

/-- `s_EscapeCharsLookup` (compiler.cpp). -/
def escapeCharLookup (c : Char) : Option Char :=
  if c = 't' then some (Char.ofNat 9)
  else if c = 'b' then some (Char.ofNat 8)
  else if c = 'r' then some (Char.ofNat 13)
  else if c = 'n' then some (Char.ofNat 10)
  else if c = 'f' then some (Char.ofNat 12)
  else if c = Char.ofNat 39 then some (Char.ofNat 39)
  else if c = '"' then some (Char.ofNat 34)
  else if c = '\\' then some (Char.ofNat 92)
  else none

/-- `Compiler::Char` (compiler.cpp): the char-literal token's interior must
be one character or one escape sequence. -/
def charLit (s : CState) : CState :=
  let text := s.prev.text.toList
  let trimmed := (text.drop 1).dropLast
  match trimmed with
  | [c1, c2] =>
      if c1 ≠ '\\' then
        messageAtPrevious "`char` must contain a single character or escape character" .error s
      else
        match escapeCharLookup c2 with
        | some c =>
            pushConstant (.char c) (pushOp .LoadConstant s.prev.line s)
        | none => messageAtPrevious "Unrecognised escape character" .error s
  | [c1] =>
      if c1 = '\\' then
        messageAtPrevious "Expected escape character after backslash" .error s
      else pushConstant (.char c1) (pushOp .LoadConstant s.prev.line s)
  | _ =>
      messageAtPrevious "`char` must contain a single character or escape character" .error s

/-- Outcome of the string-literal unescaping loop. -/
inductive StrParse where
  | ok (s : String)
  | err (msg : String)
  | exhausted
deriving DecidableEq, Repr

/-- The unescaping loop of `Compiler::String` (compiler.cpp), index-faithful
(including its quirk of rejecting an escape sequence that ends at the last
interior position). -/
def stringLoop (text : List Char) : Nat → Nat → String → StrParse
  | 0, _, _ => .exhausted
  | fuel + 1, i, res =>
    if i < text.length - 1 then
      let c := text.getD i (Char.ofNat 0)
      if c = '\\' then
        let i2 := i + 1
        if i2 = text.length - 2 then .err "Expected escape character"
        else
          match escapeCharLookup (text.getD i2 (Char.ofNat 0)) with
          | some e => stringLoop text fuel (i2 + 1) (res.push e)
          | none => .err "Unrecognised escape character"
      else stringLoop text fuel (i + 1) (res.push c)
    else .ok res

/-- `Compiler::String` (compiler.cpp). -/
def stringLit (s : CState) : CState :=
  match stringLoop s.prev.text.toList (s.prev.text.length + 2) 1 "" with
  | .ok res => pushConstant (.str res) (pushOp .LoadConstant s.prev.line s)
  | .err msg => messageAtPrevious msg .error s
  | .exhausted => { s with stuck := true }

/-- The `for` statement's range-bound variant
(`std::variant<std::int64_t, double, std::int64_t>`). -/
inductive ForRangeVal where
  | intV (i : Int) | floatV (q : ℚ) | localV (id : Int)
deriving DecidableEq, Repr

/-- The `for` statement's increment variant. -/
inductive ForIncVal where
  | intV (i : Int) | floatV (q : ℚ)
deriving DecidableEq, Repr

/-- `Compiler::FuncDeclaration`'s implicit-return epilogue (compiler.cpp
lines 326–331): append `LoadConstant null; Return` iff no value-returning
return statement was compiled and the current function is not `main`. -/
def funcDeclEpilogue (s : CState) : CState :=
  if !s.functionHadReturn ∧ lastFunctionName s ≠ some "main" then
    let s := pushConstant .null s
    let s := pushOp .LoadConstant s.prev.line s
    pushOp .Return s.prev.line s
  else s

mutual

/-- `Compiler::Declaration` (compiler.cpp): dispatch on the leading token;
`break` and `assert` are handled inline; at the end, panic mode triggers
`Synchronize`. -/
def declaration : Nat → CState → CState
  | 0, s => { s with stuck := true }
  | fuel + 1, s =>
    let s2 :=
      let (m, s) := matchTok .Class s
      if m then classDeclaration fuel s else
      let (m, s) := matchTok .Func s
      if m then funcDeclaration fuel s else
      let (m, s) := matchTok .Var s
      if m then varDeclaration fuel s else
      let (m, s) := matchTok .Final s
      if m then finalDeclaration fuel s else
      let (m, s) := matchTok .Break s
      if m then
        (if s.context ≠ .loop then
          -- no early return here, so the compiler can synchronize
          messageAtPrevious "`break` only allowed inside `for` and `while` loops" .error s
        else
          let s := { s with breakJumpNeedsIndexes := true }
          let constIdx : Int := getNumConstants s
          let s := pushConstant (.int 0) s
          let opIdx : Int := getNumConstants s
          let s := pushConstant (.int 0) s
          let s := pushOp .Jump s.prev.line s
          match s.breakIdxPairs with
          | top :: rest =>
              consume .Semicolon "Expected ; after `break`"
                { s with breakIdxPairs := (top ++ [(constIdx, opIdx)]) :: rest }
          | [] => { s with stuck := true })
      else
      let (m, s) := matchTok .Assert s
      if m then
        let line := s.prev.line
        let s := consume .LeftParen "Expected ( after `assert`" s
        let s := { s with shouldNotPopValue := true }
        let s := expression fuel false s
        let s := { s with shouldNotPopValue := false }
        let (mc, s) := matchTok .Comma s
        if mc then
          let s := consume .String "Expected message" s
          let s := pushConstant (.str s.prev.text) s
          let s := pushOp .AssertWithMessage line s
          let s := consume .RightParen "Expected )" s
          consume .Semicolon "Expected ; after `assert` expression" s
        else
          let s := pushOp .Assert line s
          let s := consume .RightParen "Expected )" s
          consume .Semicolon "Expected ; after `assert` expression" s
      else statement fuel s
    if s2.panicMode then synchronize s2 else s2

/-- `Compiler::Statement` (compiler.cpp): statements are only legal inside a
function body; the top-level check precedes all dispatch. -/
def statement : Nat → CState → CState
  | 0, s => { s with stuck := true }
  | fuel + 1, s =>
    if s.context = .topLevel then
      messageAtCurrent "Only functions and classes are allowed at top level" .error s
    else
    let (m, s) := matchTok .For s
    if m then forStatement fuel s else
    let (m, s) := matchTok .If s
    if m then ifStatement fuel s else
    let (m, s) := matchTok .Print s
    if m then printStatement fuel s else
    let (m, s) := matchTok .PrintLn s
    if m then printLnStatement fuel s else
    let (m, s) := matchTok .Return s
    if m then returnStatement fuel s else
    let (m, s) := matchTok .While s
    if m then whileStatement fuel s else
    expressionStatement fuel s

/-- `Compiler::ClassDeclaration`: `GRACE_NOT_IMPLEMENTED()` aborts the
process, marked as stuck. -/
def classDeclaration : Nat → CState → CState
  | 0, s => { s with stuck := true }
  | _ + 1, s => { s with stuck := true }

/-- The parameter loop of `Compiler::FuncDeclaration`: `none` when the C++
returns early from the whole declaration on an error. -/
def funcParamsLoop : Nat → List String → CState → Option (List String) × CState
  | 0, _, s => (none, { s with stuck := true })
  | fuel + 1, parameters, s =>
    let (m, s) := matchTok .RightParen s
    if m then (some parameters, s)
    else
      let (mf, s) := matchTok .Final s
      if mf then
        let s := consume .Identifier "Expected identifier after `final`" s
        let p := s.prev.text
        if parameters.contains p then
          (none, messageAtPrevious
            "Function parameters with the same name already defined" .error s)
        else
          let s := localsInsert p true s.locals.length s
          funcParamsLoop fuel (parameters ++ [p]) s
      else
        let (mi, s) := matchTok .Identifier s
        if mi then
          let p := s.prev.text
          if parameters.contains p then
            (none, messageAtPrevious
              "Function parameters with the same name already defined" .error s)
          else
            let s := localsInsert p false s.locals.length s
            funcParamsLoop fuel (parameters ++ [p]) s
        else
          let (mc, s) := matchTok .Comma s
          if mc then funcParamsLoop fuel parameters s
          else (none, messageAtCurrent "Expected , after function parameter" .error s)

/-- The body loop of `Compiler::FuncDeclaration` (`while (!Match(End))`);
`false` when the C++ returns early on end-of-file. -/
def funcBodyLoop : Nat → CState → Bool × CState
  | 0, s => (false, { s with stuck := true })
  | fuel + 1, s =>
    let (m, s) := matchTok .End s
    if m then (true, s)
    else
      let s := declaration fuel s
      if s.cur.type = .EndOfFile then
        (false, messageAtCurrent "Expected `end` after function" .error s)
      else funcBodyLoop fuel s

/-- `Compiler::FuncDeclaration` (compiler.cpp): parse the signature,
register the function, compile the body, and append the implicit
`LoadConstant null; Return` when the body set no return flag and the
function is not `main`. -/
def funcDeclaration : Nat → CState → CState
  | 0, s => { s with stuck := true }
  | fuel + 1, s =>
    let previous := s.context
    let s := { s with context := .function }
    let s := consume .Identifier "Expected function name" s
    let name := s.prev.text
    let s := consume .LeftParen "Expected ( after function name" s
    let (paramsRes, s) := funcParamsLoop fuel [] s
    match paramsRes with
    | none => s
    | some parameters =>
      let s := consume .Colon "Expected : after function signature" s
      let (ok, s) := addFunction name s.prev.line parameters.length s
      if !ok then messageAtPrevious "Duplicate function definitions" .error s
      else
        let s := { s with functionHadReturn := false }
        let (done, s) := funcBodyLoop fuel s
        if !done then s
        else
          -- implicitly return if the user didnt write a return so the VM
          -- knows to return to the caller
          let s := funcDeclEpilogue s
          { s with locals := [], context := previous }

/-- `Compiler::VarDeclaration` (compiler.cpp). -/
def varDeclaration : Nat → CState → CState
  | 0, s => { s with stuck := true }
  | fuel + 1, s =>
    if s.context = .topLevel then
      messageAtPrevious "Only functions and classes are allowed at top level" .error s
    else
    let s := consume .Identifier "Expected identifier after `var`" s
    if (localsLookup s s.prev.text).isSome then
      messageAtPrevious "A local variable with the same name already exists" .error s
    else
      let localName := s.prev.text
      let line := s.prev.line
      let localId : Int := s.locals.length
      let s := localsInsert localName false localId s
      let s := pushOp .DeclareLocal line s
      let (m, s) := matchTok .Equal s
      if m then
        let s := { s with shouldNotPopValue := true }
        let s := expression fuel false s
        let s := { s with shouldNotPopValue := false }
        let line2 := s.prev.line
        let s := pushConstant (.int localId) s
        let s := pushOp .AssignLocal line2 s
        consume .Semicolon "Expected ; after `var` declaration" s
      else consume .Semicolon "Expected ; after `var` declaration" s

/-- `Compiler::FinalDeclaration` (compiler.cpp). -/
def finalDeclaration : Nat → CState → CState
  | 0, s => { s with stuck := true }
  | fuel + 1, s =>
    if s.context = .topLevel then
      messageAtPrevious "Only functions and classes are allowed at top level" .error s
    else
    let s := consume .Identifier "Expected identifier after `final`" s
    if (localsLookup s s.prev.text).isSome then
      messageAtPrevious "A local variable with the same name already exists" .error s
    else
      let localName := s.prev.text
      let line := s.prev.line
      let localId : Int := s.locals.length
      let s := localsInsert localName true localId s
      let s := pushOp .DeclareLocal line s
      let s := consume .Equal "Must assign to `final` upon declaration" s
      let s := { s with shouldNotPopValue := true }
      let s := expression fuel false s
      let s := { s with shouldNotPopValue := false }
      let line2 := s.prev.line
      let s := pushConstant (.int localId) s
      let s := pushOp .AssignLocal line2 s
      consume .Semicolon "Expected ; after `final` declaration" s

/-- `Compiler::Expression` (compiler.cpp): reject operators and keywords in
operand position; an identifier routes through `Call` and either the
assignment path or the operator-chain loop; anything else precedence-climbs
from `Or`. -/
def expression : Nat → Bool → CState → CState
  | 0, _, s => { s with stuck := true }
  | fuel + 1, canAssign, s =>
    if isOperator s.cur.type then
      advance (messageAtCurrent
        "Expected identifier or literal at start of expression" .error s)
    else
      match isKeywordText s.cur.type with
      | some kw =>
          advance (messageAtCurrent
            ("`" ++ kw ++ "` is a keyword and not valid in this context") .error s)
      | none =>
        if check s .Identifier then
          let s := callExpr fuel canAssign s
          if check s .Equal then
            if s.prev.type ≠ .Identifier then
              messageAtCurrent "Only identifiers can be assigned to" .error s
            else
              let localName := s.prev.text
              match localsLookup s localName with
              | none =>
                  messageAtPrevious
                    ("Cannot find variable `" ++ localName ++ "` in this scope")
                    .error s
              | some (isFinal, id) =>
                if isFinal then
                  messageAtPrevious
                    ("Cannot reassign to final `" ++ localName ++ "`") .error s
                else
                  let s := advance s
                  if !canAssign then
                    messageAtCurrent
                      "Assignment is not valid in the current context" .error s
                  else
                    let s := { s with shouldNotPopValue := true }
                    let s := expression fuel false s
                    let s := { s with shouldNotPopValue := false }
                    let line := s.prev.line
                    let s := pushConstant (.int id) s
                    pushOp .AssignLocal line s
          else exprChainLoop fuel s
        else orExpr fuel canAssign false s

/-- The operator-chain loop of `Compiler::Expression` (the
`while (!shouldBreak) switch` over the current token). -/
def exprChainLoop : Nat → CState → CState
  | 0, s => { s with stuck := true }
  | fuel + 1, s =>
    match s.cur.type with
    | .And => exprChainLoop fuel (andExpr fuel false true s)
    | .Or => exprChainLoop fuel (orExpr fuel false true s)
    | .EqualEqual => exprChainLoop fuel (equality fuel false true s)
    | .BangEqual => exprChainLoop fuel (equality fuel false true s)
    | .GreaterThan => exprChainLoop fuel (comparison fuel false true s)
    | .GreaterEqual => exprChainLoop fuel (comparison fuel false true s)
    | .LessThan => exprChainLoop fuel (comparison fuel false true s)
    | .LessEqual => exprChainLoop fuel (comparison fuel false true s)
    | .Plus => exprChainLoop fuel (term fuel false true s)
    | .Minus => exprChainLoop fuel (term fuel false true s)
    | .Star => exprChainLoop fuel (factor fuel false true s)
    | .StarStar => exprChainLoop fuel (factor fuel false true s)
    | .Slash => exprChainLoop fuel (factor fuel false true s)
    | .Mod => exprChainLoop fuel (factor fuel false true s)
    | .Semicolon => s
    | .RightParen => s
    | .Comma => s
    | .Colon => s
    | _ => advance (messageAtCurrent "Invalid token found in expression" .error s)

/-- `Compiler::ExpressionStatement` (compiler.cpp). -/
def expressionStatement : Nat → CState → CState
  | 0, s => { s with stuck := true }
  | fuel + 1, s =>
    if isLiteral s.cur ∨ isOperator s.cur.type then
      messageAtCurrent "Expected identifier or keyword at start of expression" .error s
    else
      consume .Semicolon "Expected ; after expression" (expression fuel true s)

/-- `Compiler::Or`. -/
def orExpr : Nat → Bool → Bool → CState → CState
  | 0, _, _, s => { s with stuck := true }
  | fuel + 1, canAssign, skipFirst, s =>
    let s := if !skipFirst then andExpr fuel canAssign false s else s
    orLoop fuel canAssign s

/-- The `while (Match(Or))` loop of `Compiler::Or`. -/
def orLoop : Nat → Bool → CState → CState
  | 0, _, s => { s with stuck := true }
  | fuel + 1, canAssign, s =>
    let (m, s) := matchTok .Or s
    if m then
      let s := andExpr fuel canAssign false s
      let s := pushOp .Or s.cur.line s
      orLoop fuel canAssign s
    else s

/-- `Compiler::And`. -/
def andExpr : Nat → Bool → Bool → CState → CState
  | 0, _, _, s => { s with stuck := true }
  | fuel + 1, canAssign, skipFirst, s =>
    let s := if !skipFirst then equality fuel canAssign false s else s
    andLoop fuel canAssign s

/-- The `while (Match(And))` loop of `Compiler::And`. -/
def andLoop : Nat → Bool → CState → CState
  | 0, _, s => { s with stuck := true }
  | fuel + 1, canAssign, s =>
    let (m, s) := matchTok .And s
    if m then
      let s := equality fuel canAssign false s
      let s := pushOp .And s.cur.line s
      andLoop fuel canAssign s
    else s

/-- `Compiler::Equality`. -/
def equality : Nat → Bool → Bool → CState → CState
  | 0, _, _, s => { s with stuck := true }
  | fuel + 1, canAssign, skipFirst, s =>
    let s := if !skipFirst then comparison fuel canAssign false s else s
    let (m, s) := matchTok .EqualEqual s
    if m then
      let s := comparison fuel canAssign false s
      pushOp .Equal s.cur.line s
    else
      let (m2, s) := matchTok .BangEqual s
      if m2 then
        let s := comparison fuel canAssign false s
        pushOp .NotEqual s.cur.line s
      else s

/-- `Compiler::Comparison`. -/
def comparison : Nat → Bool → Bool → CState → CState
  | 0, _, _, s => { s with stuck := true }
  | fuel + 1, canAssign, skipFirst, s =>
    let s := if !skipFirst then term fuel canAssign false s else s
    let (m, s) := matchTok .GreaterThan s
    if m then
      let s := term fuel canAssign false s
      pushOp .Greater s.cur.line s
    else
      let (m, s) := matchTok .GreaterEqual s
      if m then
        let s := term fuel canAssign false s
        pushOp .GreaterEqual s.cur.line s
      else
        let (m, s) := matchTok .LessThan s
        if m then
          let s := term fuel canAssign false s
          pushOp .Less s.cur.line s
        else
          let (m, s) := matchTok .LessEqual s
          if m then
            let s := term fuel canAssign false s
            pushOp .LessEqual s.cur.line s
          else s

/-- `Compiler::Term`. -/
def term : Nat → Bool → Bool → CState → CState
  | 0, _, _, s => { s with stuck := true }
  | fuel + 1, canAssign, skipFirst, s =>
    let s := if !skipFirst then factor fuel canAssign false s else s
    termLoop fuel canAssign s

/-- The `while (true)` loop of `Compiler::Term`. -/
def termLoop : Nat → Bool → CState → CState
  | 0, _, s => { s with stuck := true }
  | fuel + 1, canAssign, s =>
    let (m, s) := matchTok .Minus s
    if m then
      let s := factor fuel canAssign false s
      termLoop fuel canAssign (pushOp .Subtract s.cur.line s)
    else
      let (m2, s) := matchTok .Plus s
      if m2 then
        let s := factor fuel canAssign false s
        termLoop fuel canAssign (pushOp .Add s.cur.line s)
      else s

/-- `Compiler::Factor`. -/
def factor : Nat → Bool → Bool → CState → CState
  | 0, _, _, s => { s with stuck := true }
  | fuel + 1, canAssign, skipFirst, s =>
    let s := if !skipFirst then unary fuel canAssign s else s
    factorLoop fuel canAssign s

/-- The `while (true)` loop of `Compiler::Factor`. -/
def factorLoop : Nat → Bool → CState → CState
  | 0, _, s => { s with stuck := true }
  | fuel + 1, canAssign, s =>
    let (m, s) := matchTok .StarStar s
    if m then
      let s := unary fuel canAssign s
      factorLoop fuel canAssign (pushOp .Pow s.cur.line s)
    else
      let (m, s) := matchTok .Star s
      if m then
        let s := unary fuel canAssign s
        factorLoop fuel canAssign (pushOp .Multiply s.cur.line s)
      else
        let (m, s) := matchTok .Slash s
        if m then
          let s := unary fuel canAssign s
          factorLoop fuel canAssign (pushOp .Divide s.cur.line s)
        else
          let (m, s) := matchTok .Mod s
          if m then
            let s := unary fuel canAssign s
            factorLoop fuel canAssign (pushOp .Mod s.cur.line s)
          else s

/-- `Compiler::Unary`. -/
def unary : Nat → Bool → CState → CState
  | 0, _, s => { s with stuck := true }
  | fuel + 1, canAssign, s =>
    let (m, s) := matchTok .Bang s
    if m then
      let line := s.prev.line
      let s := unary fuel canAssign s
      pushOp .Not line s
    else
      let (m2, s) := matchTok .Minus s
      if m2 then
        let line := s.prev.line
        let s := unary fuel canAssign s
        pushOp .Negate line s
      else callExpr fuel canAssign s

/-- The argument loop of `Compiler::Call`. -/
def callArgsLoop : Nat → Int → CState → Int × CState
  | 0, numArgs, s => (numArgs, { s with stuck := true })
  | fuel + 1, numArgs, s =>
    let s := expression fuel false s
    let numArgs := numArgs + 1
    let (m, s) := matchTok .RightParen s
    if m then (numArgs, s)
    else callArgsLoop fuel numArgs
      (consume .Comma "Expected , after funcion call argument" s)

/-- `Compiler::Call` (compiler.cpp): after `Primary`, an identifier followed
by `(` compiles a call (hash and arg-count constants, `Call` op, and a `Pop`
unless the enclosing context consumes the value); `.` is reserved; a bare
identifier loads the local. -/
def callExpr : Nat → Bool → CState → CState
  | 0, _, s => { s with stuck := true }
  | fuel + 1, canAssign, s =>
    let s := primary fuel canAssign s
    let prev := s.prev
    let prevText := prev.text
    if prev.type ≠ .Identifier ∧ check s .LeftParen then
      messageAtCurrent "( only allowed after functions and classes" .error s
    else if prev.type = .Identifier then
      let (m, s) := matchTok .LeftParen s
      if m then
        let (numArgs, s) :=
          let (mr, s) := matchTok .RightParen s
          if mr then ((0 : Int), s)
          else callArgsLoop fuel 0 s
        let hash := s.hashFn prevText
        let s := pushConstant (.int hash) s
        let s := pushConstant (.int numArgs) s
        let s := pushOp .Call s.prev.line s
        if !s.shouldNotPopValue then
          -- pop unused return value
          pushOp .Pop s.prev.line s
        else s
      else
        let (md, s) := matchTok .Dot s
        if md then s
        else
          if !(check s .Equal) then
            match localsLookup s prevText with
            | none =>
                messageAtPrevious
                  ("Cannot find variable `" ++ prevText ++ "` in this scope")
                  .error s
            | some (_, id) =>
                let s := pushConstant (.int id) s
                pushOp .LoadLocal prev.line s
          else s
    else s

/-- `Compiler::Primary` (compiler.cpp). -/
def primary : Nat → Bool → CState → CState
  | 0, _, s => { s with stuck := true }
  | fuel + 1, canAssign, s =>
    let (m, s) := matchTok .True s
    if m then pushConstant (.bool true) (pushOp .LoadConstant s.prev.line s)
    else
    let (m, s) := matchTok .False s
    if m then pushConstant (.bool false) (pushOp .LoadConstant s.prev.line s)
    else
    let (m, s) := matchTok .This s
    if m then s
    else
    let (m, s) := matchTok .Integer s
    if m then
      match parseIntToken s.prev.text with
      | some value => pushConstant (.int value) (pushOp .LoadConstant s.prev.line s)
      | none => messageAtPrevious "Token could not be parsed as an int" .error s
    else
    let (m, s) := matchTok .Double s
    if m then
      match parseDoubleToken s.prev.text with
      | some value => pushConstant (.float value) (pushOp .LoadConstant s.prev.line s)
      | none => messageAtPrevious "Token could not be parsed as an float" .error s
    else
    let (m, s) := matchTok .String s
    if m then stringLit s
    else
    let (m, s) := matchTok .Char s
    if m then charLit s
    else
    let (m, s) := matchTok .Identifier s
    if m then s
    else
    let (m, s) := matchTok .Null s
    if m then pushOp .LoadConstant s.prev.line (pushConstant .null s)
    else
    let (m, s) := matchTok .LeftParen s
    if m then
      let s := expression fuel canAssign s
      consume .RightParen "Expected )" s
    else
    let (m, s) := matchTok .InstanceOf s
    if m then instanceOfExpr fuel s
    else
    if isTypeIdent s.cur then castExpr fuel s
    else expression fuel canAssign s

/-- `Compiler::InstanceOf` (compiler.cpp). -/
def instanceOfExpr : Nat → CState → CState
  | 0, s => { s with stuck := true }
  | fuel + 1, s =>
    let s := consume .LeftParen "Expected ( after instanceof" s
    let s := expression fuel false s
    let s := consume .Comma "Expected , after expression" s
    let tag : Option Int :=
      match s.cur.type with
      | .BoolIdent => some 0
      | .CharIdent => some 1
      | .FloatIdent => some 2
      | .IntIdent => some 3
      | .Null => some 4
      | .StringIdent => some 5
      | _ => none
    match tag with
    | none =>
        messageAtCurrent "Expected type as second argument for `instanceof`" .error s
    | some t =>
        let s := pushConstant (.int t) s
        let s := pushOp .CheckType s.cur.line s
        let s := advance s
        let s := consume .RightParen "Expected )" s
        if !s.shouldNotPopValue then
          -- pop unused return value
          pushOp .Pop s.prev.line s
        else s

/-- `Compiler::Cast` (compiler.cpp). -/
def castExpr : Nat → CState → CState
  | 0, s => { s with stuck := true }
  | fuel + 1, s =>
    let type := s.cur.type
    let s := advance s
    let s := consume .LeftParen "Expected ( after type ident" s
    let s := expression fuel false s
    let s := pushOp (castOpFor type) s.cur.line s
    let s := consume .RightParen "Expected ) after expression" s
    if !s.shouldNotPopValue then
      -- pop unused return value
      pushOp .Pop s.prev.line s
    else s

/-- `Compiler::PrintStatement`. -/
def printStatement : Nat → CState → CState
  | 0, s => { s with stuck := true }
  | fuel + 1, s =>
    let s := consume .LeftParen "Expected ( after print" s
    let (m, s) := matchTok .RightParen s
    if m then
      let s := pushOp .PrintTab s.cur.line s
      consume .Semicolon "Expected ; after expression" s
    else
      let s := { s with shouldNotPopValue := true }
      let s := expression fuel false s
      let s := { s with shouldNotPopValue := false }
      let s := pushOp .Print s.cur.line s
      let s := pushOp .Pop s.cur.line s
      let s := consume .RightParen "Expected ) after expression" s
      consume .Semicolon "Expected ; after expression" s

/-- `Compiler::PrintLnStatement`. -/
def printLnStatement : Nat → CState → CState
  | 0, s => { s with stuck := true }
  | fuel + 1, s =>
    let s := consume .LeftParen "Expected ( after println" s
    let (m, s) := matchTok .RightParen s
    if m then
      let s := pushOp .PrintEmptyLine s.cur.line s
      consume .Semicolon "Expected ; after expression" s
    else
      let s := { s with shouldNotPopValue := true }
      let s := expression fuel false s
      let s := { s with shouldNotPopValue := false }
      let s := pushOp .PrintLn s.cur.line s
      let s := pushOp .Pop s.cur.line s
      let s := consume .RightParen "Expected ) after expression" s
      consume .Semicolon "Expected ; after expression" s

/-- `Compiler::ReturnStatement` (compiler.cpp): `return` is rejected outside
functions and inside `main`; a bare `return;` emits `LoadConstant null;
Return` without setting the had-return flag; a valued return compiles the
expression, emits `Return`, and sets the flag. -/
def returnStatement : Nat → CState → CState
  | 0, s => { s with stuck := true }
  | fuel + 1, s =>
    if s.context ≠ .function then
      messageAtPrevious "`return` only allowed inside functions" .error s
    else if lastFunctionName s = some "main" then
      messageAtPrevious "Cannot return from main function" .error s
    else
      let (m, s) := matchTok .Semicolon s
      if m then
        let s := pushConstant .null s
        let s := pushOp .LoadConstant s.prev.line s
        pushOp .Return s.prev.line s
      else
        let s := { s with shouldNotPopValue := true }
        let s := expression fuel false s
        let s := { s with shouldNotPopValue := false }
        let s := pushOp .Return s.prev.line s
        let s := consume .Semicolon "Expected ; after expression" s
        { s with functionHadReturn := true }

/-- The body loop of `Compiler::WhileStatement`. -/
def whileBodyLoop : Nat → CState → Bool × CState
  | 0, s => (false, { s with stuck := true })
  | fuel + 1, s =>
    let (m, s) := matchTok .End s
    if m then (true, s)
    else
      let s := declaration fuel s
      let (me, s) := matchTok .EndOfFile s
      if me then (false, messageAtPrevious "Unterminated `while` loop" .error s)
      else whileBodyLoop fuel s

/-- `Compiler::WhileStatement` (compiler.cpp). -/
def whileStatement : Nat → CState → CState
  | 0, s => { s with stuck := true }
  | fuel + 1, s =>
    let previousContext := s.context
    let s := { s with context := .loop }
    let s := { s with breakIdxPairs := [] :: s.breakIdxPairs }
    let constantIdx : Int := getNumConstants s
    let opIdx : Int := getNumOps s
    let s := { s with shouldNotPopValue := true }
    let s := expression fuel false s
    let s := { s with shouldNotPopValue := false }
    let line := s.prev.line
    let endConstantJumpIdx : Int := getNumConstants s
    let s := pushConstant (.int 0) s
    let endOpJumpIdx : Int := getNumConstants s
    let s := pushConstant (.int 0) s
    let s := pushOp .JumpIfFalse s.prev.line s
    let s := consume .Colon "Expected : after expression" s
    let startLocalsList := s.locals.map Prod.fst
    let (done, s) := whileBodyLoop fuel s
    if !done then s
    else
      -- jump back up to the expression so it can be re-evaluated
      let s := pushConstant (.int constantIdx) s
      let s := pushConstant (.int opIdx) s
      let s := pushOp .Jump line s
      let numConstants : Int := getNumConstants s
      let numOps : Int := getNumOps s
      let s := setConstantAtIndex endConstantJumpIdx (.int numConstants) s
      let s := setConstantAtIndex endOpJumpIdx (.int numOps) s
      let s :=
        if s.breakJumpNeedsIndexes then
          match s.breakIdxPairs with
          | top :: rest =>
              let s := top.foldl (fun s p =>
                setConstantAtIndex p.2 (.int numOps)
                  (setConstantAtIndex p.1 (.int numConstants) s)) s
              { s with breakJumpNeedsIndexes := !s.breakIdxPairs.isEmpty
                       breakIdxPairs := rest }
          | [] => { s with stuck := true }
        else s
      let s := popScopeLocals startLocalsList line s
      { s with context := previousContext }

/-- The body loop of `Compiler::ForStatement`. -/
def forBodyLoop : Nat → CState → Bool × CState
  | 0, s => (false, { s with stuck := true })
  | fuel + 1, s =>
    let (m, s) := matchTok .End s
    if m then (true, s)
    else
      let s := declaration fuel s
      let (me, s) := matchTok .EndOfFile s
      if me then (false, messageAtPrevious "Unterminated `for`" .error s)
      else forBodyLoop fuel s

/-- `Compiler::ForStatement` (compiler.cpp): iterator setup, range parse,
body, then the emitted increment / comparison / conditional back-jump. -/
def forStatement : Nat → CState → CState
  | 0, s => { s with stuck := true }
  | fuel + 1, s =>
    let previousContext := s.context
    let s := { s with context := .loop }
    let s := { s with breakIdxPairs := [] :: s.breakIdxPairs }
    let startLocalsList := s.locals.map Prod.fst
    let s := consume .Identifier "Expected identifier after `for`" s
    let iteratorName := s.prev.text
    let iterRes : Option (Int × CState) :=
      match localsLookup s iteratorName with
      | none =>
          let iteratorId : Int := s.locals.length
          let s := localsInsert iteratorName false iteratorId s
          some (iteratorId, pushOp .DeclareLocal s.prev.line s)
      | some (isFinal, id) =>
          if isFinal then none
          else if s.verbose then
            some (id, messageAtPrevious
              ("There is already a local variable called `" ++ iteratorName ++
               "` in this scope which will be reassigned inside the `for` loop")
              .warning s)
          else some (id, s)
    match iterRes with
    | none =>
        messageAtPrevious
          ("Loop variable `" ++ s.prev.text ++ "` has already been declared as `final`")
          .error s
    | some (iteratorId, s) =>
      let s := consume .In "Expected `in` after identifier" s
      let line := s.prev.line
      let minRes : Option CState :=
        let (m, s) := matchTok .Integer s
        if m then
          match parseIntToken s.prev.text with
          | none => none
          | some value =>
              let s := pushConstant (.int value) s
              let s := pushOp .LoadConstant line s
              let s := pushConstant (.int iteratorId) s
              some (pushOp .AssignLocal line s)
        else
          let (m, s) := matchTok .Double s
          if m then
            match parseDoubleToken s.prev.text with
            | none => none
            | some value =>
                let s := pushConstant (.float value) s
                let s := pushOp .LoadConstant line s
                let s := pushConstant (.int iteratorId) s
                some (pushOp .AssignLocal line s)
          else
            let (m, s) := matchTok .Identifier s
            if m then
              match localsLookup s s.prev.text with
              | none => none
              | some (_, localId) =>
                  let s := pushConstant (.int localId) s
                  let s := pushOp .LoadLocal line s
                  let s := pushConstant (.int iteratorId) s
                  some (pushOp .AssignLocal line s)
            else none
      match minRes with
      | none => messageAtCurrent "Expected identifier or number as range min" .error s
      | some s =>
        let s := consume .DotDot "Expected .. after range min" s
        let maxRes : Option (ForRangeVal × CState) :=
          let (m, s) := matchTok .Integer s
          if m then (parseIntToken s.prev.text).map fun v => (.intV v, s)
          else
            let (m, s) := matchTok .Double s
            if m then (parseDoubleToken s.prev.text).map fun v => (.floatV v, s)
            else
              let (m, s) := matchTok .Identifier s
              if m then
                (localsLookup s s.prev.text).map fun p => (.localV p.2, s)
              else none
        match maxRes with
        | none => messageAtCurrent "Expected identifier or integer as range max" .error s
        | some (maxV, s) =>
          let incRes : Option (ForIncVal × CState) :=
            let (m, s) := matchTok .By s
            if m then
              let (mi, s) := matchTok .Integer s
              if mi then (parseIntToken s.prev.text).map fun v => (.intV v, s)
              else
                let (md, s) := matchTok .Double s
                if md then (parseDoubleToken s.prev.text).map fun v => (.floatV v, s)
                else none
            else some (.intV 1, s)
          match incRes with
          | none => messageAtPrevious "Increment must be a number" .error s
          | some (incV, s) =>
            let s := consume .Colon "Expected : after `for` statement" s
            let constantIdx : Int := getNumConstants s
            let opIdx : Int := getNumOps s
            let (done, s) := forBodyLoop fuel s
            if !done then s
            else
              let s := pushConstant (.int iteratorId) s
              let s := pushOp .LoadLocal line s
              let s :=
                match incV with
                | .intV v => pushConstant (.int v) s
                | .floatV v => pushConstant (.float v) s
              let s := pushOp .LoadConstant line s
              let s := pushOp .Add line s
              let s := pushConstant (.int iteratorId) s
              let s := pushOp .AssignLocal line s
              let s := pushConstant (.int iteratorId) s
              let s := pushOp .LoadLocal line s
              let s :=
                match maxV with
                | .intV v => pushOp .LoadConstant line (pushConstant (.int v) s)
                | .floatV v => pushOp .LoadConstant line (pushConstant (.float v) s)
                | .localV id => pushOp .LoadLocal line (pushConstant (.int id) s)
              let s := pushOp .GreaterEqual line s
              let s := pushConstant (.int constantIdx) s
              let s := pushConstant (.int opIdx) s
              let s := pushOp .JumpIfFalse line s
              let s :=
                if s.breakJumpNeedsIndexes then
                  match s.breakIdxPairs with
                  | top :: rest =>
                      let numConstants : Int := getNumConstants s
                      let numOps : Int := getNumOps s
                      let s := top.foldl (fun s p =>
                        setConstantAtIndex p.2 (.int numOps)
                          (setConstantAtIndex p.1 (.int numConstants) s)) s
                      { s with breakJumpNeedsIndexes := !s.breakIdxPairs.isEmpty
                               breakIdxPairs := rest }
                  | [] => { s with stuck := true }
                else s
              let s := popScopeLocals startLocalsList line s
              { s with context := previousContext }

/-- The block loop of `Compiler::IfStatement`; returns the end-jump patch
list and the top-jump-set flag on normal exit, `none` on an early error
return. -/
def ifLoop : Nat → Int → Int → List (Int × Int) → Bool → Bool → Bool → Bool →
    CState → Option (List (Int × Int) × Bool) × CState
  | 0, _, _, _, _, _, _, _, s => (none, { s with stuck := true })
  | fuel + 1, topC, topO, endPairs, topJumpSet, elseFound, elseIfFound, needsElse, s =>
    let (mElse, s) := matchTok .Else s
    let afterElse :
        Option (List (Int × Int) × Bool × Bool × Bool × Bool) × CState :=
      if mElse then
        if elseFound then
          (none, messageAtPrevious "Unreachable `else` due to previous `else`" .error s)
        else
          let endConstantIdx : Int := getNumConstants s
          let s := pushConstant (.int 0) s
          let endOpIdx : Int := getNumConstants s
          let s := pushConstant (.int 0) s
          let s := pushOp .Jump s.prev.line s
          let endPairs := endPairs ++ [(endConstantIdx, endOpIdx)]
          let numConstants : Int := getNumConstants s
          let numOps : Int := getNumOps s
          let (s, topJumpSet) :=
            if !topJumpSet then
              (setConstantAtIndex topO (.int numOps)
                (setConstantAtIndex topC (.int numConstants) s), true)
            else (s, topJumpSet)
          let (mc, s) := matchTok .Colon s
          if mc then (some (endPairs, topJumpSet, true, elseIfFound, needsElse), s)
          else if check s .If then
            (some (endPairs, topJumpSet, elseFound, true, false), s)
          else
            (none, messageAtCurrent "Expected `if` or `:` after `else`" .error s)
      else (some (endPairs, topJumpSet, elseFound, elseIfFound, needsElse), s)
    match afterElse with
    | (none, s) => (none, s)
    | (some (endPairs, topJumpSet, elseFound, elseIfFound, needsElse), s) =>
      let s := declaration fuel s
      if elseIfFound then (some (endPairs, topJumpSet), s)
      else
        let (me, s) := matchTok .EndOfFile s
        if me then (none, messageAtPrevious "Unterminated `if` statement" .error s)
        else
          if needsElse then
            let (mEnd, s) := matchTok .End s
            if mEnd then (some (endPairs, topJumpSet), s)
            else ifLoop fuel topC topO endPairs topJumpSet elseFound elseIfFound needsElse s
          else ifLoop fuel topC topO endPairs topJumpSet elseFound elseIfFound needsElse s

/-- `Compiler::IfStatement` (compiler.cpp). -/
def ifStatement : Nat → CState → CState
  | 0, s => { s with stuck := true }
  | fuel + 1, s =>
    let s := { s with shouldNotPopValue := true }
    let s := expression fuel false s
    let s := { s with shouldNotPopValue := false }
    let s := consume .Colon "Expected : after condition" s
    let topConstantIdxToJump : Int := getNumConstants s
    let s := pushConstant (.int 0) s
    let topOpIdxToJump : Int := getNumConstants s
    let s := pushConstant (.int 0) s
    let s := pushOp .JumpIfFalse s.prev.line s
    let startLocalsList := s.locals.map Prod.fst
    let (loopRes, s) :=
      ifLoop fuel topConstantIdxToJump topOpIdxToJump [] false false false true s
    match loopRes with
    | none => s
    | some (endPairs, topJumpSet) =>
      let numConstants : Int := getNumConstants s
      let numOps : Int := getNumOps s
      let s := endPairs.foldl (fun s p =>
        setConstantAtIndex p.2 (.int numOps)
          (setConstantAtIndex p.1 (.int numConstants) s)) s
      let s :=
        if !topJumpSet then
          setConstantAtIndex topOpIdxToJump (.int numOps)
            (setConstantAtIndex topConstantIdxToJump (.int numConstants) s)
        else s
      popScopeLocals startLocalsList s.prev.line s

end

/-- `Grace::Compiler::Compile`'s top loop (compiler.cpp lines 29–34): parse
declarations until `EndOfFile`, stopping after the first declaration that
left the had-error flag set. -/
def compileLoop : Nat → CState → CState
  | 0, s => { s with stuck := true }
  | fuel + 1, s =>
    let (m, s) := matchTok .EndOfFile s
    if m then s
    else
      let s := declaration fuel s
      if s.hadError then s
      else compileLoop fuel s

/-- `Grace::Compiler::Compile`: construct the compiler (context `TopLevel`),
prime the token pair with one `Advance`, and run the declaration loop. -/
def compileTokens (fuel : Nat) (hashFn : String → Int) (toks : List Token) :
    CState :=
  compileLoop fuel (advance { tokens := toks, hashFn := hashFn })

/-! Concrete token streams used to exercise the embedded compiler, and small
accessors for stating the claims. -/

/-- A concrete name hash for concrete compiler runs (the real
`std::hash<std::string>` is unspecified; only injectivity on the few names
in play matters). -/
def grHash : String → Int :=
  fun nm => if nm = "main" then 1 else if nm = "foo" then 2 else 3

/-- Token shorthand for concrete programs (line/column 1 throughout). -/
def tokOf (ty : TokenType) (tx : String) : Token := { type := ty, text := tx }

/-- Does the op list end with an explicit `Return`? -/
def endsWithReturn (ops : List (Ops × Int)) : Bool :=
  match ops.getLast? with
  | some (op, _) => op == Ops.Return
  | none => false

/-- The op list of the current (last added) function. -/
def currentOpList (s : CState) : List (Ops × Int) :=
  match s.lastFunction with
  | some f => f.opList
  | none => []

/-- `func main ( ) : end` — a `main` whose body has no return statement. -/
def c2Prog : List Token :=
  [tokOf .Func "func", tokOf .Identifier "main", tokOf .LeftParen "(",
   tokOf .RightParen ")", tokOf .Colon ":", tokOf .End "end",
   tokOf .EndOfFile ""]

/-- `func main ( ) : var 1 = 2 ; break ; end` — two erroneous statements
separated by a `;` boundary; the first one has a second error site inside
its panic window (the missing `;` after the bad `var`). -/
def c5Prog : List Token :=
  [tokOf .Func "func", tokOf .Identifier "main", tokOf .LeftParen "(",
   tokOf .RightParen ")", tokOf .Colon ":",
   tokOf .Var "var", tokOf .Integer "1", tokOf .Equal "=", tokOf .Integer "2",
   tokOf .Semicolon ";",
   tokOf .Break "break", tokOf .Semicolon ";",
   tokOf .End "end", tokOf .EndOfFile ""]

/-- `func main ( ) : end assert ( true ) ;` — a top-level `assert` after a
function declaration. -/
def c6Prog : List Token :=
  [tokOf .Func "func", tokOf .Identifier "main", tokOf .LeftParen "(",
   tokOf .RightParen ")", tokOf .Colon ":", tokOf .End "end",
   tokOf .Assert "assert", tokOf .LeftParen "(", tokOf .True "true",
   tokOf .RightParen ")", tokOf .Semicolon ";", tokOf .EndOfFile ""]

/-- `func main ( ) : assert ( true and true ) ; end`. -/
def c7Prog : List Token :=
  [tokOf .Func "func", tokOf .Identifier "main", tokOf .LeftParen "(",
   tokOf .RightParen ")", tokOf .Colon ":",
   tokOf .Assert "assert", tokOf .LeftParen "(", tokOf .True "true",
   tokOf .And "and", tokOf .True "true", tokOf .RightParen ")",
   tokOf .Semicolon ";", tokOf .End "end", tokOf .EndOfFile ""]

/-- `func main ( ) : return ; end`. -/
def c9MainProg : List Token :=
  [tokOf .Func "func", tokOf .Identifier "main", tokOf .LeftParen "(",
   tokOf .RightParen ")", tokOf .Colon ":",
   tokOf .Return "return", tokOf .Semicolon ";",
   tokOf .End "end", tokOf .EndOfFile ""]

/-- `func foo ( ) : return ; end func main ( ) : end`. -/
def c9OtherProg : List Token :=
  [tokOf .Func "func", tokOf .Identifier "foo", tokOf .LeftParen "(",
   tokOf .RightParen ")", tokOf .Colon ":",
   tokOf .Return "return", tokOf .Semicolon ";",
   tokOf .End "end",
   tokOf .Func "func", tokOf .Identifier "main", tokOf .LeftParen "(",
   tokOf .RightParen ")", tokOf .Colon ":", tokOf .End "end",
   tokOf .EndOfFile ""]

/-- A compiler state in the middle of `main`'s body, having just matched a
`return` token. -/
def c9MainState : CState :=
  { tokens := [], context := .function,
    previous := some (tokOf .Return "return"),
    functions := [(1, { name := "main", hash := 1, arity := 0, line := 1 })],
    lastFunctionHash := some 1, hashFn := grHash }

/-- A compiler state in the middle of `foo`'s body, having just matched a
`return` token, with the terminating `;` as the current token. -/
def c9FooState : CState :=
  { tokens := [], context := .function,
    current := some (tokOf .Semicolon ";"),
    functions := [(2, { name := "foo", hash := 2, arity := 0, line := 1 })],
    lastFunctionHash := some 2, hashFn := grHash }

/-- `func main ( ) : while true : return ; end end` — a `return` nested in a
`while` loop inside `main`. -/
def c9LoopProg : List Token :=
  [tokOf .Func "func", tokOf .Identifier "main", tokOf .LeftParen "(",
   tokOf .RightParen ")", tokOf .Colon ":", tokOf .While "while",
   tokOf .True "true", tokOf .Colon ":", tokOf .Return "return",
   tokOf .Semicolon ";", tokOf .End "end", tokOf .End "end"]

/-- The state in which `Compiler::Statement` runs for the `while` of
`c9LoopProg`: `func` … `:` consumed by `FuncDeclaration` (which registered
`main` and made `while` current with the signature's `:` previous), body
loop entered, `Declaration`'s keyword matches all failed down to
`Statement`.  The context is still `Function` — `WhileStatement` itself
switches it to `Loop` before the body. -/
def c9WhileState : CState :=
  { tokens := c9LoopProg.drop 6,
    current := some (tokOf .While "while"),
    previous := some (tokOf .Colon ":"), context := .function,
    functions := [(1, { name := "main", hash := 1, arity := 0, line := 1 })],
    lastFunctionHash := some 1, hashFn := grHash }

/-- A compiler state inside a loop body (in any function), having just
matched a `return` token. -/
def c9LoopState : CState :=
  { tokens := [], context := .loop,
    previous := some (tokOf .Return "return"),
    functions := [(1, { name := "main", hash := 1, arity := 0, line := 1 })],
    lastFunctionHash := some 1, hashFn := grHash }

/-! ## Claim C1 — the `AssignLocal` opcode -/

/-- Pops of a known-length prefix: the `Ops::Call` argument loop on a stack
holding the pushed arguments (`args` in declaration order, so the stack top
is `args`'s last element) yields the frame `args` and the untouched rest. -/
theorem popCallArgs_append (args rest : List GValue) :
    popCallArgs args.length (args.reverse ++ rest) = some (args, rest) := by
  induction args using List.reverseRecOn with
  | nil => simp [popCallArgs]
  | append_singleton t v ih =>
      simp only [List.reverse_append, List.reverse_cons, List.reverse_nil,
        List.nil_append, List.cons_append, List.length_append, List.length_cons,
        List.length_nil, Nat.zero_add]
      simp only [popCallArgs]
      rw [ih]

/-- C1, counterexample: executing `AssignLocal` with `42` on top of the stack
does store `42` into `locals[base + 0]`, but the value is popped — the stack
is empty afterwards, so the stack height is NOT unchanged as the claim
states (vm.cpp `Ops::AssignLocal` begins with `auto value = Pop(valueStack)`). -/
theorem c1_counterexample :
    vmStep c1Image c1State = .next
      { funcNameHash := 0
        valueStack := []
        localsList := [.int 42]
        opCurrent := 1
        constantCurrent := 1
        opOffsets := [0]
        constantOffsets := [0]
        localsOffsets := [0]
        callStack := [] } ∧
    ([] : List GValue).length ≠ c1State.valueStack.length := by
  constructor
  · rfl
  · decide

/-- C1 (amended): executing `AssignLocal` with value `v` on top of the value
stack and slot-id `k` as its constant operand stores `v` into
`locals[base + k]` and POPS `v` — the stack height decreases by one and the
assigned value is not left on the stack. -/
theorem c1_assignLocal_stores_and_pops (vm : VMImage) (s : VMState) (line k : Int)
    (v : GValue) (rest : List GValue) (base : Nat) (obase : List Nat)
    (hop : vm.fullOpList.get? s.opCurrent = some (.AssignLocal, line))
    (hconst : vm.fullConstantList.get? s.constantCurrent = some (.int k))
    (hk : 0 ≤ k)
    (hstack : s.valueStack = v :: rest)
    (hoff : s.localsOffsets = base :: obase)
    (hidx : k.toNat + base < s.localsList.length) :
    vmStep vm s = .next { s with
      valueStack := rest
      localsList := s.localsList.set (k.toNat + base) v
      opCurrent := s.opCurrent + 1
      constantCurrent := s.constantCurrent + 1 } := by
  have hk2 : ¬ (k < 0) := not_lt.mpr hk
  simp only [vmStep, hop, hstack, hconst, hoff, hk2, if_false, hidx, if_true]

/-- C1 witness: the amended theorem applied at the concrete input. -/
theorem c1_assignLocal_stores_and_pops_witness :
    vmStep c1Image c1State = .next { c1State with
      valueStack := []
      localsList := c1State.localsList.set 0 (.int 42)
      opCurrent := 1
      constantCurrent := 1 } :=
  c1_assignLocal_stores_and_pops c1Image c1State 1 0 (.int 42) [] 0 []
    rfl rfl (by decide) rfl rfl (by decide)

/-! ## Claim C7 — the `And` / `Or` opcodes -/

set_option maxHeartbeats 2000000 in
/-- C7: executing `And` (resp. `Or`) on a stack holding `a` below `b` pops
both operands and pushes the single Bool `a.asBool && b.asBool` (resp.
`||`); the result is computed from BOTH operands, which are already on the
stack — there is no runtime short-circuiting (vm.cpp `Ops::And`/`Ops::Or`).
On the compile side, `func main(): assert(true and true); end` compiles the
conjunction to `LoadConstant; LoadConstant; And` — both operands emitted
eagerly, no jump opcode. -/
theorem c7_and_or_eager (vm : VMImage) (s : VMState) (line : Int)
    (a b : GValue) (rest : List GValue)
    (hstack : s.valueStack = b :: a :: rest) :
    (vm.fullOpList.get? s.opCurrent = some (.And, line) →
      vmStep vm s = .next { s with
        opCurrent := s.opCurrent + 1
        valueStack := .bool (a.asBool && b.asBool) :: rest }) ∧
    (vm.fullOpList.get? s.opCurrent = some (.Or, line) →
      vmStep vm s = .next { s with
        opCurrent := s.opCurrent + 1
        valueStack := .bool (a.asBool || b.asBool) :: rest }) ∧
    ((compileTokens 100 grHash c7Prog).functions.map fun p =>
        (p.2.name, p.2.opList.map Prod.fst)) =
      [("main", [Ops.LoadConstant, Ops.LoadConstant, Ops.And, Ops.Assert])] := by
  refine ⟨?_, ?_, ?_⟩
  · intro hop
    simp only [vmStep, hop, hstack]
  · intro hop
    simp only [vmStep, hop, hstack]
  · rfl

/-- C7 witness: `And` at `[true, false]` and the theorem's `Or` conjunct at
the same state shape. -/
theorem c7_and_or_eager_witness :
    vmStep { fullOpList := [(.And, 1)], fullConstantList := [], functionList := [] }
      { funcNameHash := 0, valueStack := [.bool true, .bool false], localsList := []
        opCurrent := 0, constantCurrent := 0, opOffsets := [0], constantOffsets := [0]
        localsOffsets := [0], callStack := [] }
    = .next
      { funcNameHash := 0, valueStack := [.bool false], localsList := []
        opCurrent := 1, constantCurrent := 0, opOffsets := [0], constantOffsets := [0]
        localsOffsets := [0], callStack := [] } :=
  (c7_and_or_eager _ _ 1 (.bool false) (.bool true) [] rfl).1 rfl

/-! ## Claim C3 — the `Call` opcode -/

/-- C3: the `Call` opcode's contract (vm.cpp `Ops::Call`).  With callee hash
and argument count `n` as its two constant operands and the `n` argument
values `args` (declaration order; last argument on top) on the stack:

* if the hash resolves to a function of arity `n`, the step extends the
  locals by the frame `args` (argument `i` in slot `i-1`), pushes the
  pre-extension locals length as the new base offset, removes the arguments
  from the value stack and leaves the caller's advanced cursors
  `(opCurrent+1, constantCurrent+2)` as two Int values on top (constant
  cursor topmost), pushes a call-stack frame, and sets both cursors to the
  callee's start offsets;
* if the hash does not resolve, the result is a `FunctionNotFound` error;
* if the argument count differs from the callee's arity, the result is an
  `IncorrectArgCount` error. -/
theorem c3_call_contract (vm : VMImage) (s : VMState) (line hash n : Int)
    (hop : vm.fullOpList.get? s.opCurrent = some (.Call, line))
    (hc1 : vm.fullConstantList.get? s.constantCurrent = some (.int hash))
    (hc2 : vm.fullConstantList.get? (s.constantCurrent + 1) = some (.int n)) :
    (∀ f args rest, vm.findFunction hash = some f →
      n = (f.arity : Int) → s.valueStack = args.reverse ++ rest →
      args.length = f.arity →
      vmStep vm s = .next { s with
        localsOffsets := s.localsList.length :: s.localsOffsets
        localsList := s.localsList ++ args
        callStack := (s.funcNameHash, hash, line) :: s.callStack
        valueStack := .int ((s.constantCurrent : Int) + 2)
          :: .int ((s.opCurrent : Int) + 1) :: rest
        opCurrent := f.opIndexStart
        constantCurrent := f.constantIndexStart
        opOffsets := f.opIndexStart :: s.opOffsets
        constantOffsets := f.constantIndexStart :: s.constantOffsets
        funcNameHash := hash }) ∧
    (vm.findFunction hash = none →
      vmStep vm s = .errorOut .FunctionNotFound) ∧
    (∀ f, vm.findFunction hash = some f → n ≠ (f.arity : Int) →
      vmStep vm s = .errorOut .IncorrectArgCount) := by
  refine ⟨?_, ?_, ?_⟩
  · intro f args rest hf harity hstack hlen
    have hpop : popCallArgs f.arity s.valueStack = some (args, rest) := by
      rw [hstack, ← hlen]; exact popCallArgs_append args rest
    simp only [vmStep, hop, hc1, hc2, hf, hpop, harity]
    simp [Int.natCast_add]
    omega
  · intro hf
    simp only [vmStep, hop, hc1, hf]
  · intro f hf hne
    simp only [vmStep, hop, hc1, hc2, hf]
    simp [hne]

/-- C3 witness: the success conjunct of the contract at the concrete call
`foo(10, 20)` — frame `[10, 20]`, return address `(1, 2)` on the stack. -/
theorem c3_call_contract_witness :
    vmStep c3Image c3State = .next { c3State with
      localsOffsets := c3State.localsList.length :: c3State.localsOffsets
      localsList := c3State.localsList ++ [.int 10, .int 20]
      callStack := (c3State.funcNameHash, 2, 3) :: c3State.callStack
      valueStack := .int ((c3State.constantCurrent : Int) + 2)
        :: .int ((c3State.opCurrent : Int) + 1) :: []
      opCurrent := 1
      constantCurrent := 2
      opOffsets := 1 :: c3State.opOffsets
      constantOffsets := 2 :: c3State.constantOffsets
      funcNameHash := 2 } :=
  (c3_call_contract c3Image c3State 3 2 2 rfl rfl rfl).1
    { name := "foo", hash := 2, arity := 2, line := 8
      opIndexStart := 1, constantIndexStart := 2 }
    [.int 10, .int 20] [] rfl rfl rfl rfl

/-! ## Claim C4 — linking fails without `main` -/

/-- C4: if no function named `main` was declared (and the name hash is
collision-free on the declared names versus `"main"`), then
`VM::CombineFunctions` fails with the reported error message and the VM
never begins executing: the driver outcome is `linkFailed`, never `ran`. -/
theorem c4_no_main_link_fails (hashFn : String → Int) (pre : PreVM) (fuel : Nat)
    (hnames : ∀ p ∈ pre.functionList, (p : Int × VMFunction).2.name ≠ "main")
    (hkeys : ∀ p ∈ pre.functionList, (p : Int × VMFunction).1 = hashFn p.2.name)
    (hcoll : ∀ nm : String, nm ≠ "main" → hashFn nm ≠ hashFn "main") :
    combineFunctions hashFn pre =
      .error "Could not find `main` function in file, execution cannot proceed." ∧
    runProgram hashFn pre fuel =
      .linkFailed "Could not find `main` function in file, execution cannot proceed." ∧
    ∀ out, runProgram hashFn pre fuel ≠ .ran out := by
  have hfind : pre.functionList.find? (fun p => p.1 == hashFn "main") = none := by
    rw [List.find?_eq_none]
    intro p hp
    have h1 := hnames p hp
    have h2 := hkeys p hp
    have h3 := hcoll p.2.name h1
    simp [h2, h3]
  have hcomb : combineFunctions hashFn pre =
      .error "Could not find `main` function in file, execution cannot proceed." := by
    simp only [combineFunctions, hfind, Option.map_none']
  refine ⟨hcomb, ?_, ?_⟩
  · simp only [runProgram, hcomb]
  · intro out
    simp only [runProgram, hcomb]
    exact fun h => ProgramOutcome.noConfusion h

/-- C4 witness: one declared function `foo` and a hash separating `foo`-like
names from `main`. -/
theorem c4_no_main_link_fails_witness :
    combineFunctions (fun nm => if nm = "main" then 0 else 1)
      { functionList := [(1, { name := "foo", hash := 1, arity := 0, line := 1 })] } =
      .error "Could not find `main` function in file, execution cannot proceed." :=
  (c4_no_main_link_fails (fun nm => if nm = "main" then 0 else 1)
    { functionList := [(1, { name := "foo", hash := 1, arity := 0, line := 1 })] } 0
    (by intro p hp; simp at hp; simp [hp])
    (by intro p hp; simp at hp; simp [hp])
    (by intro nm h; simp [h])).1

/-! ## Claim C8 — dictionary truthiness -/

/-- C8 (the code's actual behaviour, exhibiting the bug): a freshly
constructed dictionary holds no entries (`m_Size = 0`), yet `AsBool` returns
`true`, because `!m_Data.empty()` tests the backing array — which is
constructed with capacity 8 and only ever grows.  Indeed `AsBool` is `true`
for every dictionary whose backing array is non-empty, i.e. every
constructible one. -/
theorem c8_asBool_ignores_emptiness :
    GraceDictionary.empty.mSize = 0 ∧
    GraceDictionary.empty.asBool = true ∧
    ∀ d : GraceDictionary, 8 ≤ d.cells.length → d.asBool = true := by
  refine ⟨rfl, rfl, ?_⟩
  intro d hd
  unfold GraceDictionary.asBool
  cases h : d.cells with
  | nil => rw [h] at hd; simp at hd
  | cons a t => simp

/-- C8 witness: the universal conjunct applied to the empty dictionary. -/
theorem c8_asBool_ignores_emptiness_witness :
    GraceDictionary.empty.asBool = true :=
  c8_asBool_ignores_emptiness.2.2 GraceDictionary.empty (by decide)

theorem wrapIdx_eq_mod (n i : Nat) (h : i ≤ n) : wrapIdx n i = i % n := by
  unfold wrapIdx
  rcases Nat.lt_or_ge i n with hlt | hge
  · rw [if_neg (Nat.ne_of_lt hlt), Nat.mod_eq_of_lt hlt]
  · have : i = n := Nat.le_antisymm h hge
    subst this
    simp

theorem walk_zero (n start : Nat) : walk n start 0 = start % n := by
  simp [walk]

theorem walk_lt (n start s : Nat) (hn : 0 < n) : walk n start s < n :=
  Nat.mod_lt _ hn

theorem walk_wrap_succ (n start s : Nat) (h : start ≤ n) :
    walk n (wrapIdx n start + 1) s = walk n start (s + 1) := by
  rw [wrapIdx_eq_mod n start h]
  unfold walk
  rw [Nat.add_assoc, Nat.mod_add_mod]
  congr 1
  omega

theorem walk_from_home (n home s : Nat) :
    walk n (home + 1) s = walk n home (s + 1) := by
  unfold walk
  congr 1
  omega

theorem walk_surj (n start j : Nat) (hj : j < n) :
    ∃ t, t < n ∧ walk n start t = j := by
  have hn : 0 < n := Nat.lt_of_le_of_lt (Nat.zero_le j) hj
  have ha : start % n ≤ n := Nat.le_of_lt (Nat.mod_lt _ hn)
  refine ⟨(j + n - start % n) % n, Nat.mod_lt _ hn, ?_⟩
  unfold walk
  rw [Nat.add_mod_mod, ← Nat.mod_add_mod]
  have h2 : start % n + (j + n - start % n) = j + n := by omega
  rw [h2, Nat.add_mod_right, Nat.mod_eq_of_lt hj]

theorem dist_walk (n home T : Nat) (hh : home < n) (hT : T < n) :
    (walk n home T + n - home) % n = T := by
  unfold walk
  rcases Nat.lt_or_ge (home + T) n with hcase | hcase
  · rw [Nat.mod_eq_of_lt hcase]
    have h2 : home + T + n - home = T + n := by omega
    rw [h2, Nat.add_mod_right, Nat.mod_eq_of_lt hT]
  · have hlt : home + T - n < n := by omega
    have h1 : (home + T) % n = home + T - n := by
      rw [Nat.mod_eq_sub_mod hcase, Nat.mod_eq_of_lt hlt]
    rw [h1]
    have h2 : home + T - n + n - home = T := by omega
    rw [h2, Nat.mod_eq_of_lt hT]

/-! Helper lemmas about `dictPairs`, `occCount` and `List.set`. -/

theorem length_dictPairs (cells : List DictCell) :
    (dictPairs cells).length = occCount cells := by
  induction cells with
  | nil => rfl
  | cons c t ih =>
      cases c <;> simp [dictPairs, occCount, DictCell.isOcc, List.filter] at ih ⊢ <;>
        omega

theorem mem_dictPairs_of_get? (cells : List DictCell) (p : Nat) (k v : GValue)
    (h : cells.get? p = some (.occupied k v)) : (k, v) ∈ dictPairs cells := by
  have hmem : DictCell.occupied k v ∈ cells := by
    exact List.get?_mem h
  unfold dictPairs
  rw [List.mem_filterMap]
  exact ⟨.occupied k v, hmem, rfl⟩

theorem get?_of_mem_dictPairs (cells : List DictCell) (k v : GValue)
    (h : (k, v) ∈ dictPairs cells) :
    ∃ p, cells.get? p = some (.occupied k v) := by
  unfold dictPairs at h
  rw [List.mem_filterMap] at h
  obtain ⟨c, hc, hfc⟩ := h
  cases c with
  | occupied k2 v2 =>
      simp at hfc
      obtain ⟨hk, hv⟩ := hfc
      subst hk; subst hv
      exact List.get?_of_mem hc
  | neverUsed => simp at hfc
  | tombstone => simp at hfc

theorem dictPairs_set_free (cells : List DictCell) (pos : Nat) (c : DictCell)
    (k v : GValue) (hc : cells.get? pos = some c) (hfree : c.isOcc = false) :
    (dictPairs (cells.set pos (.occupied k v))).Perm ((k, v) :: dictPairs cells) := by
  induction cells generalizing pos with
  | nil => simp at hc
  | cons a t ih =>
      cases pos with
      | zero =>
          simp only [List.get?_cons_zero, Option.some.injEq] at hc
          subst hc
          cases a with
          | occupied k2 v2 => simp [DictCell.isOcc] at hfree
          | neverUsed =>
              simp only [List.set_cons_zero, dictPairs, List.filterMap_cons]
              exact List.Perm.refl _
          | tombstone =>
              simp only [List.set_cons_zero, dictPairs, List.filterMap_cons]
              exact List.Perm.refl _
      | succ p =>
          simp only [List.get?_cons_succ] at hc
          have hperm := ih p hc
          cases a with
          | occupied k2 v2 =>
              simp only [List.set_cons_succ, dictPairs, List.filterMap_cons] at hperm ⊢
              exact (hperm.cons (k2, v2)).trans (List.Perm.swap _ _ _)
          | neverUsed =>
              simpa [dictPairs] using hperm
          | tombstone =>
              simpa [dictPairs] using hperm

theorem occCount_set_free (cells : List DictCell) (pos : Nat) (c : DictCell)
    (k v : GValue) (hc : cells.get? pos = some c) (hfree : c.isOcc = false) :
    occCount (cells.set pos (.occupied k v)) = occCount cells + 1 := by
  have h1 := length_dictPairs (cells.set pos (.occupied k v))
  have h2 := length_dictPairs cells
  have h3 := (dictPairs_set_free cells pos c k v hc hfree).length_eq
  simp at h3
  omega

theorem exists_free_of_occCount_lt (cells : List DictCell)
    (h : occCount cells < cells.length) :
    ∃ j c, j < cells.length ∧ cells.get? j = some c ∧ c.isOcc = false := by
  have : ∃ c ∈ cells, ¬(DictCell.isOcc c = true) := by
    by_contra hall
    push_neg at hall
    have : cells.filter DictCell.isOcc = cells := List.filter_eq_self.mpr hall
    unfold occCount at h
    rw [this] at h
    omega
  obtain ⟨c, hmem, hc⟩ := this
  obtain ⟨j, hj⟩ := List.get?_of_mem hmem
  have hjlt : j < cells.length := by
    by_contra hge
    push_neg at hge
    rw [List.get?_eq_none.mpr hge] at hj
    exact Option.noConfusion hj
  exact ⟨j, c, hjlt, hj, Bool.eq_false_iff.mpr hc⟩

theorem noTomb_set_occ (cells : List DictCell) (pos : Nat) (k v : GValue)
    (hnt : ∀ p, cells.get? p ≠ some .tombstone) :
    ∀ p, (cells.set pos (.occupied k v)).get? p ≠ some .tombstone := by
  intro p
  rcases eq_or_ne pos p with h | h
  · subst h
    rw [List.get?_set_eq]
    intro hcontra
    cases hget : cells.get? pos <;> rw [hget] at hcontra <;> simp at hcontra
  · rw [List.get?_set_ne _ _ h]
    exact hnt p

theorem occAt_set_occ_mono (cells : List DictCell) (pos q : Nat) (k v : GValue)
    (h : occAt cells q = true) : occAt (cells.set pos (.occupied k v)) q = true := by
  unfold occAt at h ⊢
  rcases eq_or_ne pos q with he | hne
  · subst he
    rw [List.get?_set_eq]
    cases hget : cells.get? pos with
    | none => rw [hget] at h; simp [DictCell.isOcc] at h
    | some c => simp [DictCell.isOcc]
  · rw [List.get?_set_ne _ _ hne]
    exact h

/-! The probe loops characterised along the walk: skipping `T` cells and
then acting on the stop cell. -/

theorem probeStops_false_elim (key : GValue) (o : Option DictCell)
    (h : probeStops key o = false) :
    ∃ k v, o = some (.occupied k v) ∧ valueEq k key = false := by
  cases o with
  | none => simp [probeStops] at h
  | some c =>
      cases c with
      | occupied k v => exact ⟨k, v, rfl, by simpa [probeStops] using h⟩
      | neverUsed => simp [probeStops] at h
      | tombstone => simp [probeStops] at h

theorem insertProbe_spec_found (key value : GValue) (cells : List DictCell) :
    ∀ T fuel start, start ≤ cells.length → T < fuel →
      (∀ s, s < T → probeStops key (cells.get? (walk cells.length start s)) = false) →
      (∃ k v, cells.get? (walk cells.length start T) = some (.occupied k v) ∧
        valueEq k key = true) →
      insertProbe key value fuel start cells = some (false, cells) := by
  intro T
  induction T with
  | zero =>
      intro fuel start hstart hfuel _ hstop
      obtain ⟨k, v, hget, heq⟩ := hstop
      match fuel, hfuel with
      | fuel + 1, _ =>
        have hj : wrapIdx cells.length start = walk cells.length start 0 := by
          rw [wrapIdx_eq_mod _ _ hstart, walk_zero]
        unfold insertProbe
        rw [hj]
        simp only [hget, heq, if_true]
  | succ T ih =>
      intro fuel start hstart hfuel hskip hstop
      obtain ⟨k0, v0, hget0, hne0⟩ :=
        probeStops_false_elim key _ (hskip 0 (Nat.succ_pos T))
      rw [walk_zero] at hget0
      match fuel, hfuel with
      | fuel + 1, hfuel =>
        have hj : wrapIdx cells.length start = start % cells.length :=
          wrapIdx_eq_mod _ _ hstart
        have hjlt : start % cells.length < cells.length := by
          by_contra hge
          push_neg at hge
          rw [List.get?_eq_none.mpr hge] at hget0
          exact Option.noConfusion hget0
        have hshift : ∀ s, walk cells.length (start % cells.length + 1) s =
            walk cells.length start (s + 1) := by
          intro s
          have := walk_wrap_succ cells.length start s hstart
          rwa [wrapIdx_eq_mod _ _ hstart] at this
        have hrec : insertProbe key value fuel (start % cells.length + 1) cells =
            some (false, cells) := by
          refine ih fuel (start % cells.length + 1) hjlt (by omega) ?_ ?_
          · intro s hs
            rw [hshift s]
            exact hskip (s + 1) (by omega)
          · rw [hshift T]
            exact hstop
        unfold insertProbe
        rw [hj]
        simp only [hget0, hne0, Bool.false_eq_true, if_false]
        exact hrec

theorem insertProbe_spec_free (key value : GValue) (cells : List DictCell) :
    ∀ T fuel start, start ≤ cells.length → T < fuel →
      (∀ s, s < T → probeStops key (cells.get? (walk cells.length start s)) = false) →
      (∃ c, cells.get? (walk cells.length start T) = some c ∧ c.isOcc = false) →
      insertProbe key value fuel start cells =
        some (true, cells.set (walk cells.length start T) (.occupied key value)) := by
  intro T
  induction T with
  | zero =>
      intro fuel start hstart hfuel _ hstop
      obtain ⟨c, hget, hfree⟩ := hstop
      match fuel, hfuel with
      | fuel + 1, _ =>
        have hj : wrapIdx cells.length start = walk cells.length start 0 := by
          rw [wrapIdx_eq_mod _ _ hstart, walk_zero]
        unfold insertProbe
        rw [hj]
        simp only [hget]
        cases c with
        | occupied k2 v2 => simp [DictCell.isOcc] at hfree
        | neverUsed => rfl
        | tombstone => rfl
  | succ T ih =>
      intro fuel start hstart hfuel hskip hstop
      obtain ⟨k0, v0, hget0, hne0⟩ :=
        probeStops_false_elim key _ (hskip 0 (Nat.succ_pos T))
      rw [walk_zero] at hget0
      match fuel, hfuel with
      | fuel + 1, hfuel =>
        have hj : wrapIdx cells.length start = start % cells.length :=
          wrapIdx_eq_mod _ _ hstart
        have hjlt : start % cells.length < cells.length := by
          by_contra hge
          push_neg at hge
          rw [List.get?_eq_none.mpr hge] at hget0
          exact Option.noConfusion hget0
        have hshift : ∀ s, walk cells.length (start % cells.length + 1) s =
            walk cells.length start (s + 1) := by
          intro s
          have := walk_wrap_succ cells.length start s hstart
          rwa [wrapIdx_eq_mod _ _ hstart] at this
        have hrec : insertProbe key value fuel (start % cells.length + 1) cells =
            some (true, cells.set (walk cells.length start (T + 1)) (.occupied key value)) := by
          rw [← hshift T]
          refine ih fuel (start % cells.length + 1) hjlt (by omega) ?_ ?_
          · intro s hs
            rw [hshift s]
            exact hskip (s + 1) (by omega)
          · rw [hshift T]
            exact hstop
        unfold insertProbe
        rw [hj]
        simp only [hget0, hne0, Bool.false_eq_true, if_false]
        exact hrec

theorem rehashPlace_spec (key value : GValue) (cells : List DictCell) :
    ∀ T fuel start, start ≤ cells.length → T < fuel →
      (∀ s, s < T → rehashStops (cells.get? (walk cells.length start s)) = false) →
      (cells.get? (walk cells.length start T) = some .neverUsed) →
      rehashPlace key value fuel start cells =
        some (cells.set (walk cells.length start T) (.occupied key value)) := by
  intro T
  induction T with
  | zero =>
      intro fuel start hstart hfuel _ hstop
      match fuel, hfuel with
      | fuel + 1, _ =>
        have hj : wrapIdx cells.length start = walk cells.length start 0 := by
          rw [wrapIdx_eq_mod _ _ hstart, walk_zero]
        unfold rehashPlace
        rw [hj]
        simp only [hstop]
  | succ T ih =>
      intro fuel start hstart hfuel hskip hstop
      have h0 := hskip 0 (Nat.succ_pos T)
      rw [walk_zero] at h0
      obtain ⟨c0, hget0, hc0⟩ :
          ∃ c0, cells.get? (start % cells.length) = some c0 ∧ c0 ≠ .neverUsed := by
        cases hget : cells.get? (start % cells.length) with
        | none => rw [hget] at h0; simp [rehashStops] at h0
        | some c =>
            refine ⟨c, rfl, ?_⟩
            intro hcontra
            subst hcontra
            rw [hget] at h0
            simp [rehashStops] at h0
      match fuel, hfuel with
      | fuel + 1, hfuel =>
        have hj : wrapIdx cells.length start = start % cells.length :=
          wrapIdx_eq_mod _ _ hstart
        have hjlt : start % cells.length < cells.length := by
          by_contra hge
          push_neg at hge
          rw [List.get?_eq_none.mpr hge] at hget0
          exact Option.noConfusion hget0
        have hshift : ∀ s, walk cells.length (start % cells.length + 1) s =
            walk cells.length start (s + 1) := by
          intro s
          have := walk_wrap_succ cells.length start s hstart
          rwa [wrapIdx_eq_mod _ _ hstart] at this
        have hrec : rehashPlace key value fuel (start % cells.length + 1) cells =
            some (cells.set (walk cells.length start (T + 1)) (.occupied key value)) := by
          rw [← hshift T]
          refine ih fuel (start % cells.length + 1) hjlt (by omega) ?_ ?_
          · intro s hs
            rw [hshift s]
            exact hskip (s + 1) (by omega)
          · rw [hshift T]
            exact hstop
        unfold rehashPlace
        rw [hj]
        simp only [hget0]
        cases c0 with
        | neverUsed => exact absurd rfl hc0
        | occupied k2 v2 => exact hrec
        | tombstone => exact hrec

/-! Further probe-geometry helpers. -/

theorem lt_length_of_get?_some {α : Type} (l : List α) (n : Nat) (a : α)
    (h : l.get? n = some a) : n < l.length := by
  by_contra hge
  push_neg at hge
  rw [List.get?_eq_none.mpr hge] at h
  exact Option.noConfusion h

theorem walk_dist (n index q : Nat) (hi : index < n) (hq : q < n) :
    walk n index ((q + n - index) % n) = q := by
  have hn : 0 < n := Nat.lt_of_le_of_lt (Nat.zero_le index) hi
  unfold walk
  rw [Nat.add_mod_mod, ← Nat.mod_add_mod]
  have ha : index % n = index := Nat.mod_eq_of_lt hi
  rw [ha]
  have h2 : index + (q + n - index) = q + n := by omega
  rw [h2, Nat.add_mod_right, Nat.mod_eq_of_lt hq]

theorem occAt_true_of_get?_occupied (cells : List DictCell) (p : Nat)
    (k v : GValue) (h : cells.get? p = some (.occupied k v)) :
    occAt cells p = true := by
  unfold occAt
  rw [h]
  rfl

theorem occAt_eq_isOcc (cells : List DictCell) (p : Nat) (c : DictCell)
    (h : cells.get? p = some c) : occAt cells p = c.isOcc := by
  unfold occAt
  rw [h]
  rfl

/-- Chain preservation under placing a pair into a free slot whose own
probe chain from the new key's home slot is fully occupied. -/
theorem chainP_set_free (hashFn : GValue → Nat) (cells : List DictCell)
    (pos : Nat) (key value : GValue) (c : DictCell)
    (hget : cells.get? pos = some c) (hfree : c.isOcc = false)
    (hchain : chainP hashFn cells)
    (hpre : ∀ s, s < (pos + cells.length - hashFn key % cells.length) % cells.length →
        occAt cells (walk cells.length (hashFn key % cells.length) s) = true) :
    chainP hashFn (cells.set pos (.occupied key value)) := by
  intro p k v hp s hs
  rw [List.length_set] at hs ⊢
  rcases eq_or_ne pos p with he | hne
  · subst he
    have hlt : pos < cells.length := lt_length_of_get?_some cells pos c hget
    rw [List.get?_set_eq_of_lt _ hlt] at hp
    have hkv : key = k ∧ value = v := by
      have := Option.some.inj hp
      cases this
      exact ⟨rfl, rfl⟩
    obtain ⟨hk, _⟩ := hkv
    subst hk
    exact occAt_set_occ_mono cells pos _ key value (hpre s hs)
  · rw [List.get?_set_ne _ _ hne] at hp
    exact occAt_set_occ_mono cells pos _ key value (hchain p k v hp s hs)

theorem hasKeyB_true_iff (key : GValue) (cells : List DictCell) :
    hasKeyB key cells = true ↔
      ∃ q k v, cells.get? q = some (.occupied k v) ∧ valueEq k key = true := by
  unfold hasKeyB
  rw [List.any_eq_true]
  constructor
  · rintro ⟨⟨k, v⟩, hmem, heq⟩
    obtain ⟨q, hq⟩ := get?_of_mem_dictPairs cells k v hmem
    exact ⟨q, k, v, hq, heq⟩
  · rintro ⟨q, k, v, hq, heq⟩
    exact ⟨(k, v), mem_dictPairs_of_get? cells q k v hq, heq⟩

/-- Behaviour of `insertAfterGrow` on a table satisfying the probe-chain
invariant: an equal key present anywhere makes it return `false` with the
dictionary untouched; otherwise it places the pair into some free slot
(reached by a fully-occupied probe chain from the key's home slot, exposed
for invariant preservation) and increments `m_Size`. -/
theorem insertAfterGrow_spec (hashFn : GValue → Nat) (key value : GValue)
    (d : GraceDictionary)
    (hn : 0 < d.cells.length)
    (hocc : occCount d.cells < d.cells.length)
    (hchain : chainP hashFn d.cells)
    (hhash : ∀ k1 k2 : GValue, valueEq k1 k2 = true → hashFn k1 = hashFn k2) :
    (hasKeyB key d.cells = true →
        insertAfterGrow hashFn key value d = some (false, d)) ∧
    (hasKeyB key d.cells = false →
      ∃ pos c, d.cells.get? pos = some c ∧ c.isOcc = false ∧
        (∀ s, s < (pos + d.cells.length - hashFn key % d.cells.length) %
            d.cells.length →
          occAt d.cells (walk d.cells.length (hashFn key % d.cells.length) s)
            = true) ∧
        insertAfterGrow hashFn key value d =
          some (true, { cells := d.cells.set pos (.occupied key value)
                        mSize := d.mSize + 1 })) := by
  set n := d.cells.length with hndef
  set index := hashFn key % n with hidef
  have hindex : index < n := Nat.mod_lt _ hn
  obtain ⟨c0, hc0⟩ : ∃ c0, d.cells.get? index = some c0 := by
    cases hget : d.cells.get? index with
    | none =>
        rw [List.get?_eq_none] at hget
        omega
    | some c => exact ⟨c, rfl⟩
  -- the home slot of any key equal to the probe key is exactly `index`
  have hhome : ∀ q kq vq, d.cells.get? q = some (.occupied kq vq) →
      valueEq kq key = true → hashFn kq % n = index := by
    intro q kq vq _ heq
    rw [hidef, hhash kq key heq]
  cases c0 with
  | neverUsed =>
      -- free home slot: the chain property rules out any equal key
      have habsent : hasKeyB key d.cells = false := by
        rw [Bool.eq_false_iff]
        intro hpres
        obtain ⟨q, kq, vq, hq, heq⟩ := (hasKeyB_true_iff key d.cells).mp hpres
        have hqh := hhome q kq vq hq heq
        rcases eq_or_ne q index with he | hne
        · subst he
          rw [hq] at hc0
          exact Option.noConfusion hc0 (fun h => DictCell.noConfusion h)
        · have hqlt : q < n := lt_length_of_get?_some _ _ _ hq
          have hD : walk n index ((q + n - index) % n) = q :=
            walk_dist n index q hindex hqlt
          have hDpos : 0 < (q + n - index) % n := by
            rcases Nat.eq_zero_or_pos ((q + n - index) % n) with h0 | h0
            · rw [h0, walk_zero, Nat.mod_eq_of_lt hindex] at hD
              exact absurd hD.symm hne
            · exact h0
          have := hchain q kq vq hq 0 (by rw [hqh]; exact hDpos)
          rw [hqh, walk_zero, Nat.mod_eq_of_lt hindex] at this
          rw [occAt_eq_isOcc d.cells index _ hc0] at this
          exact Bool.noConfusion this
      refine ⟨?_, ?_⟩
      · intro hpres
        rw [habsent] at hpres
        exact Bool.noConfusion hpres
      · intro _
        refine ⟨index, .neverUsed, hc0, rfl, ?_, ?_⟩
        · intro s hs
          have : (index + n - index) % n = 0 := by
            have h2 : index + n - index = n := by omega
            rw [h2, Nat.mod_self]
          rw [this] at hs
          omega
        · simp only [insertAfterGrow]
          rw [← hndef, ← hidef]
          simp only [hc0]
  | tombstone =>
      have habsent : hasKeyB key d.cells = false := by
        rw [Bool.eq_false_iff]
        intro hpres
        obtain ⟨q, kq, vq, hq, heq⟩ := (hasKeyB_true_iff key d.cells).mp hpres
        have hqh := hhome q kq vq hq heq
        rcases eq_or_ne q index with he | hne
        · subst he
          rw [hq] at hc0
          exact Option.noConfusion hc0 (fun h => DictCell.noConfusion h)
        · have hqlt : q < n := lt_length_of_get?_some _ _ _ hq
          have hD : walk n index ((q + n - index) % n) = q :=
            walk_dist n index q hindex hqlt
          have hDpos : 0 < (q + n - index) % n := by
            rcases Nat.eq_zero_or_pos ((q + n - index) % n) with h0 | h0
            · rw [h0, walk_zero, Nat.mod_eq_of_lt hindex] at hD
              exact absurd hD.symm hne
            · exact h0
          have := hchain q kq vq hq 0 (by rw [hqh]; exact hDpos)
          rw [hqh, walk_zero, Nat.mod_eq_of_lt hindex] at this
          rw [occAt_eq_isOcc d.cells index _ hc0] at this
          exact Bool.noConfusion this
      refine ⟨?_, ?_⟩
      · intro hpres
        rw [habsent] at hpres
        exact Bool.noConfusion hpres
      · intro _
        refine ⟨index, .tombstone, hc0, rfl, ?_, ?_⟩
        · intro s hs
          have : (index + n - index) % n = 0 := by
            have h2 : index + n - index = n := by omega
            rw [h2, Nat.mod_self]
          rw [this] at hs
          omega
        · simp only [insertAfterGrow]
          rw [← hndef, ← hidef]
          simp only [hc0]
  | occupied k0 v0 =>
      cases hk0 : valueEq k0 key with
      | true =>
        -- equal key in the home slot: immediate `false`
        have hpres : hasKeyB key d.cells = true :=
          (hasKeyB_true_iff key d.cells).mpr ⟨index, k0, v0, hc0, hk0⟩
        refine ⟨?_, ?_⟩
        · intro _
          simp only [insertAfterGrow]
          rw [← hndef, ← hidef]
          simp only [hc0, hk0, if_true]
        · intro habs
          rw [hpres] at habs
          exact Bool.noConfusion habs
      | false =>
        -- occupied home slot with a different key: linear probe from index+1
        have hstart : index + 1 ≤ n := hindex
        have hP : ∃ t, probeStops key (d.cells.get? (walk n (index + 1) t)) = true := by
          obtain ⟨j, cj, hjlt, hcj, hcjfree⟩ := exists_free_of_occCount_lt d.cells hocc
          obtain ⟨t0, _, ht0w⟩ := walk_surj n (index + 1) j hjlt
          refine ⟨t0, ?_⟩
          rw [ht0w, hcj]
          cases cj with
          | occupied k2 v2 => simp [DictCell.isOcc] at hcjfree
          | neverUsed => rfl
          | tombstone => rfl
        classical
        set T := Nat.find hP with hTdef
        have hT : probeStops key (d.cells.get? (walk n (index + 1) T)) = true :=
          Nat.find_spec hP
        have hTmin : ∀ s, s < T →
            probeStops key (d.cells.get? (walk n (index + 1) s)) = false := by
          intro s hs
          rw [Bool.eq_false_iff]
          exact Nat.find_min hP hs
        have hTlt : T < n := by
          obtain ⟨j, cj, hjlt, hcj, hcjfree⟩ := exists_free_of_occCount_lt d.cells hocc
          obtain ⟨t0, ht0n, ht0w⟩ := walk_surj n (index + 1) j hjlt
          have : T ≤ t0 := by
            apply Nat.find_min'
            rw [ht0w, hcj]
            cases cj with
            | occupied k2 v2 => simp [DictCell.isOcc] at hcjfree
            | neverUsed => rfl
            | tombstone => rfl
          omega
        have hpTlt : walk n (index + 1) T < n := walk_lt n (index + 1) T hn
        obtain ⟨cT, hcT⟩ : ∃ cT, d.cells.get? (walk n (index + 1) T) = some cT := by
          cases hget : d.cells.get? (walk n (index + 1) T) with
          | none =>
              rw [List.get?_eq_none] at hget
              omega
          | some c => exact ⟨c, rfl⟩
        cases hcTocc : cT.isOcc with
        | true =>
            -- the probe stops at an equal key: return false, table untouched
            obtain ⟨kT, vT, hcTeq⟩ : ∃ kT vT, cT = .occupied kT vT := by
              cases cT with
              | occupied kT vT => exact ⟨kT, vT, rfl⟩
              | neverUsed => exact Bool.noConfusion hcTocc
              | tombstone => exact Bool.noConfusion hcTocc
            subst hcTeq
            have hkT : valueEq kT key = true := by
              rw [hcT] at hT
              simpa [probeStops] using hT
            have hfound := insertProbe_spec_found key value d.cells T n (index + 1)
              hstart hTlt hTmin ⟨kT, vT, hcT, hkT⟩
            have hpres : hasKeyB key d.cells = true :=
              (hasKeyB_true_iff key d.cells).mpr ⟨_, kT, vT, hcT, hkT⟩
            refine ⟨?_, ?_⟩
            · intro _
              simp only [insertAfterGrow]
              rw [← hndef, ← hidef]
              simp only [hc0, hk0, Bool.false_eq_true, if_false, hfound]
            · intro habs
              rw [hpres] at habs
              exact Bool.noConfusion habs
        | false =>
            have hfree := insertProbe_spec_free key value d.cells T n (index + 1)
              hstart hTlt hTmin ⟨cT, hcT, hcTocc⟩
            -- no equal key can be present: its chain would cover the stop slot
            have habsent : hasKeyB key d.cells = false := by
              rw [Bool.eq_false_iff]
              intro hpres
              obtain ⟨q, kq, vq, hq, heq⟩ := (hasKeyB_true_iff key d.cells).mp hpres
              have hqh := hhome q kq vq hq heq
              rcases eq_or_ne q index with he | hne
              · subst he
                rw [hq] at hc0
                have := Option.some.inj hc0
                cases this
                rw [heq] at hk0
                exact Bool.noConfusion hk0
              · have hqlt : q < n := lt_length_of_get?_some _ _ _ hq
                set D := (q + n - index) % n with hDdef
                have hDw : walk n index D = q := walk_dist n index q hindex hqlt
                have hDpos : 0 < D := by
                  rcases Nat.eq_zero_or_pos D with h0 | h0
                  · rw [h0, walk_zero, Nat.mod_eq_of_lt hindex] at hDw
                    exact absurd hDw.symm hne
                  · exact h0
                have hDlt : D < n := Nat.mod_lt _ hn
                -- q is on the probe walk at step D - 1
                have hqwalk : walk n (index + 1) (D - 1) = q := by
                  rw [walk_from_home]
                  have h1 : D - 1 + 1 = D := by omega
                  rw [h1]
                  exact hDw
                have hPq : probeStops key (d.cells.get? (walk n (index + 1) (D - 1)))
                    = true := by
                  rw [hqwalk, hq]
                  simpa [probeStops] using heq
                have hTle : T ≤ D - 1 := Nat.find_min' hP hPq
                rcases Nat.lt_or_ge T (D - 1) with hlt | hge
                · -- strictly before q: the chain makes the stop slot occupied
                  have hchainq := hchain q kq vq hq (T + 1)
                    (by rw [hqh, ← hndef, ← hDdef]; omega)
                  rw [hqh] at hchainq
                  have hw : walk n index (T + 1) = walk n (index + 1) T :=
                    (walk_from_home n index T).symm
                  rw [hw] at hchainq
                  rw [occAt_eq_isOcc d.cells _ _ hcT, hcTocc] at hchainq
                  exact Bool.noConfusion hchainq
                · have hTeq : T = D - 1 := by omega
                  rw [hTeq, hqwalk, hq] at hcT
                  have := Option.some.inj hcT
                  rw [← this] at hcTocc
                  exact Bool.noConfusion hcTocc
            refine ⟨?_, ?_⟩
            · intro hpres
              rw [habsent] at hpres
              exact Bool.noConfusion hpres
            · intro _
              refine ⟨walk n (index + 1) T, cT, hcT, hcTocc, ?_, ?_⟩
              · -- the probe prefix and the occupied home slot give the chain
                intro s hs
                have hTn : T + 1 < n := by
                  rcases Nat.lt_or_ge (T + 1) n with h | h
                  · exact h
                  · exfalso
                    have hTeq : T + 1 = n := by omega
                    have hwi : walk n (index + 1) T = index := by
                      rw [walk_from_home, hTeq]
                      unfold walk
                      rw [Nat.add_mod_right, Nat.mod_eq_of_lt hindex]
                    rw [hwi, hc0] at hcT
                    have := Option.some.inj hcT
                    rw [← this] at hcTocc
                    exact Bool.noConfusion hcTocc
                have hwdist : walk n (index + 1) T = walk n index (T + 1) :=
                  walk_from_home n index T
                rw [hwdist, dist_walk n index (T + 1) hindex hTn] at hs
                cases s with
                | zero =>
                    rw [walk_zero, Nat.mod_eq_of_lt hindex]
                    exact occAt_true_of_get?_occupied d.cells index k0 v0 hc0
                | succ u =>
                    rw [← walk_from_home]
                    obtain ⟨ku, vu, hgu, _⟩ :=
                      probeStops_false_elim key _ (hTmin u (by omega))
                    exact occAt_true_of_get?_occupied d.cells _ ku vu hgu
              · have hfree2 := hfree
                rw [← hndef] at hfree2
                simp only [insertAfterGrow]
                rw [← hndef, ← hidef]
                simp only [hc0, hk0, Bool.false_eq_true, if_false, hfree2, if_true]

theorem rehashStops_false_elim (o : Option DictCell) (h : rehashStops o = false) :
    ∃ c, o = some c ∧ c ≠ .neverUsed := by
  cases o with
  | none => simp [rehashStops] at h
  | some c =>
      refine ⟨c, rfl, ?_⟩
      intro hcontra
      subst hcontra
      simp [rehashStops] at h

theorem get?_replicate_cell (n p : Nat) (a : DictCell) :
    (List.replicate n a).get? p = if p < n then some a else none := by
  simp [List.get?_eq_getElem?, List.getElem?_replicate]

theorem noTombP_replicate (n : Nat) : noTombP (List.replicate n .neverUsed) := by
  intro p
  rw [get?_replicate_cell]
  rcases Nat.lt_or_ge p n with h | h
  · rw [if_pos h]
    intro hc
    exact DictCell.noConfusion (Option.some.inj hc)
  · rw [if_neg (by omega)]
    exact fun hc => Option.noConfusion hc

theorem chainP_replicate (hashFn : GValue → Nat) (n : Nat) :
    chainP hashFn (List.replicate n DictCell.neverUsed) := by
  intro p k v hp
  rw [get?_replicate_cell] at hp
  rcases Nat.lt_or_ge p n with h | h
  · rw [if_pos h] at hp
    exact absurd (Option.some.inj hp) (fun hc => DictCell.noConfusion hc)
  · rw [if_neg (by omega)] at hp
    exact Option.noConfusion hp

theorem occCount_replicate_neverUsed (n : Nat) :
    occCount (List.replicate n DictCell.neverUsed) = 0 := by
  induction n with
  | zero => rfl
  | succ m ih => simpa [occCount, List.replicate_succ, List.filter,
      DictCell.isOcc] using ih

theorem occCount_le_length (cells : List DictCell) :
    occCount cells ≤ cells.length :=
  List.length_filter_le _ _

theorem occCount_append (c1 c2 : List DictCell) :
    occCount (c1 ++ c2) = occCount c1 + occCount c2 := by
  simp [occCount, List.filter_append]

theorem dictPairs_append (c1 c2 : List DictCell) :
    dictPairs (c1 ++ c2) = dictPairs c1 ++ dictPairs c2 := by
  simp [dictPairs, List.filterMap_append]

theorem dictPairs_replicate_neverUsed (n : Nat) :
    dictPairs (List.replicate n DictCell.neverUsed) = [] := by
  induction n with
  | zero => rfl
  | succ m ih => simpa [dictPairs, List.replicate_succ, List.filterMap_cons] using ih

theorem any_eq_of_perm {α : Type} (f : α → Bool) {l1 l2 : List α}
    (h : l1.Perm l2) : l1.any f = l2.any f := by
  cases h1 : l1.any f
  · cases h2 : l2.any f
    · rfl
    · rw [List.any_eq_true] at h2
      obtain ⟨x, hx, hfx⟩ := h2
      have hcontra : l1.any f = true := List.any_eq_true.mpr ⟨x, h.mem_iff.mpr hx, hfx⟩
      rw [h1] at hcontra
      exact Bool.noConfusion hcontra
  · rw [List.any_eq_true] at h1
    obtain ⟨x, hx, hfx⟩ := h1
    exact (List.any_eq_true.mpr ⟨x, h.mem_iff.mp hx, hfx⟩).symm

/-- One `Rehash` placement succeeds on any table with a never-used slot,
placing into the first never-used slot on the walk from the key's home; the
walk prefix is fully occupied. -/
theorem rehashPlace_succeeds (key value : GValue) (cells : List DictCell)
    (home : Nat) (hhome : home < cells.length)
    (hnt : noTombP cells)
    (hocc : occCount cells < cells.length) :
    ∃ pos, cells.get? pos = some .neverUsed ∧
      (∀ s, s < (pos + cells.length - home) % cells.length →
          occAt cells (walk cells.length home s) = true) ∧
      rehashPlace key value cells.length home cells =
        some (cells.set pos (.occupied key value)) := by
  set n := cells.length with hndef
  have hn : 0 < n := Nat.lt_of_le_of_lt (Nat.zero_le home) hhome
  have hP : ∃ t, rehashStops (cells.get? (walk n home t)) = true := by
    obtain ⟨j, cj, hjlt, hcj, hcjfree⟩ := exists_free_of_occCount_lt cells hocc
    obtain ⟨t0, _, ht0w⟩ := walk_surj n home j hjlt
    refine ⟨t0, ?_⟩
    rw [ht0w, hcj]
    cases cj with
    | occupied k2 v2 => simp [DictCell.isOcc] at hcjfree
    | neverUsed => rfl
    | tombstone => exact absurd hcj (hnt j)
  classical
  set T := Nat.find hP with hTdef
  have hT : rehashStops (cells.get? (walk n home T)) = true := Nat.find_spec hP
  have hTmin : ∀ s, s < T → rehashStops (cells.get? (walk n home s)) = false := by
    intro s hs
    rw [Bool.eq_false_iff]
    exact Nat.find_min hP hs
  have hTlt : T < n := by
    obtain ⟨j, cj, hjlt, hcj, hcjfree⟩ := exists_free_of_occCount_lt cells hocc
    obtain ⟨t0, ht0n, ht0w⟩ := walk_surj n home j hjlt
    have : T ≤ t0 := by
      apply Nat.find_min'
      rw [ht0w, hcj]
      cases cj with
      | occupied k2 v2 => simp [DictCell.isOcc] at hcjfree
      | neverUsed => rfl
      | tombstone => exact absurd hcj (hnt j)
    omega
  have hpT : cells.get? (walk n home T) = some .neverUsed := by
    cases hget : cells.get? (walk n home T) with
    | none =>
        rw [List.get?_eq_none] at hget
        have := walk_lt n home T hn
        omega
    | some c =>
        cases c with
        | neverUsed => rfl
        | occupied k2 v2 => rw [hget] at hT; simp [rehashStops] at hT
        | tombstone => exact absurd hget (hnt _)
  refine ⟨walk n home T, hpT, ?_, ?_⟩
  · intro s hs
    rw [dist_walk n home T hhome hTlt] at hs
    obtain ⟨c, hgc, hcne⟩ := rehashStops_false_elim _ (hTmin s hs)
    cases c with
    | occupied k2 v2 => exact occAt_true_of_get?_occupied cells _ k2 v2 hgc
    | neverUsed => exact absurd rfl hcne
    | tombstone => exact absurd hgc (hnt _)
  · exact rehashPlace_spec key value cells T n home (Nat.le_of_lt hhome) hTlt
      hTmin hpT

/-- The `Rehash` placement fold: starting from a tombstone-free table with
enough spare slots, every pair is placed, the invariant is maintained and
the pair multiset accumulates. -/
theorem rehashFold_spec (hashFn : GValue → Nat) :
    ∀ (ps : List (GValue × GValue)) (cs : List DictCell),
      noTombP cs → chainP hashFn cs →
      occCount cs + ps.length ≤ cs.length →
      ∃ cs2,
        ps.foldlM (fun cs kv =>
          rehashPlace kv.1 kv.2 cs.length (hashFn kv.1 % cs.length) cs) cs
          = some cs2 ∧
        cs2.length = cs.length ∧
        noTombP cs2 ∧ chainP hashFn cs2 ∧
        occCount cs2 = occCount cs + ps.length ∧
        (dictPairs cs2).Perm (ps ++ dictPairs cs) := by
  intro ps
  induction ps with
  | nil =>
      intro cs hnt hchain _
      exact ⟨cs, rfl, rfl, hnt, hchain, rfl, List.Perm.refl _⟩
  | cons kv ps ih =>
      intro cs hnt hchain hroom
      have hn : 0 < cs.length := by
        have := occCount_le_length cs
        simp at hroom
        omega
      have hocc : occCount cs < cs.length := by
        simp at hroom
        omega
      have hhome : hashFn kv.1 % cs.length < cs.length := Nat.mod_lt _ hn
      obtain ⟨pos, hpos, hpre, heq⟩ :=
        rehashPlace_succeeds kv.1 kv.2 cs (hashFn kv.1 % cs.length) hhome hnt hocc
      set cs1 := cs.set pos (.occupied kv.1 kv.2) with hcs1
      have hlen1 : cs1.length = cs.length := List.length_set cs pos _
      have hnt1 : noTombP cs1 := noTomb_set_occ cs pos kv.1 kv.2 hnt
      have hchain1 : chainP hashFn cs1 :=
        chainP_set_free hashFn cs pos kv.1 kv.2 .neverUsed hpos rfl hchain hpre
      have hocc1 : occCount cs1 = occCount cs + 1 :=
        occCount_set_free cs pos .neverUsed kv.1 kv.2 hpos rfl
      have hpairs1 : (dictPairs cs1).Perm ((kv.1, kv.2) :: dictPairs cs) :=
        dictPairs_set_free cs pos .neverUsed kv.1 kv.2 hpos rfl
      obtain ⟨cs2, hfold, hlen2, hnt2, hchain2, hocc2, hpairs2⟩ :=
        ih cs1 hnt1 hchain1 (by simp at hroom; omega)
      refine ⟨cs2, ?_, by omega, hnt2, hchain2, by simp; omega, ?_⟩
      · simp only [List.foldlM_cons, heq, Option.bind_eq_bind, Option.some_bind]
        exact hfold
      · refine hpairs2.trans ?_
        refine (List.Perm.append_left ps hpairs1).trans ?_
        exact List.perm_middle

/-- `GraceDictionary::Rehash` always succeeds, preserves the stored pairs
(as a multiset), the occupied count and the table length, leaves no
tombstone, and re-establishes the probe-chain property. -/
theorem rehash_spec (hashFn : GValue → Nat) (cells : List DictCell) :
    ∃ cs, rehash hashFn cells = some cs ∧ cs.length = cells.length ∧
      noTombP cs ∧ chainP hashFn cs ∧ occCount cs = occCount cells ∧
      (dictPairs cs).Perm (dictPairs cells) := by
  have hroom : occCount (List.replicate cells.length DictCell.neverUsed) +
      (dictPairs cells).length ≤ (List.replicate cells.length DictCell.neverUsed).length := by
    rw [occCount_replicate_neverUsed, length_dictPairs, List.length_replicate]
    exact Nat.zero_add _ ▸ occCount_le_length cells
  obtain ⟨cs2, hfold, hlen, hnt, hchain, hocc, hpairs⟩ :=
    rehashFold_spec hashFn (dictPairs cells)
      (List.replicate cells.length DictCell.neverUsed)
      (noTombP_replicate cells.length) (chainP_replicate hashFn cells.length) hroom
  refine ⟨cs2, hfold, ?_, hnt, hchain, ?_, ?_⟩
  · rw [hlen, List.length_replicate]
  · rw [hocc, occCount_replicate_neverUsed, length_dictPairs]
    omega
  · simpa [dictPairs_replicate_neverUsed] using hpairs

/-- C10: `GraceDictionary::Insert` on any dictionary satisfying the
reachable-state invariant, with a hasher consistent with `Value` equality:
if a pair with an equal key is already present, it returns `false` and
leaves the stored pairs and `m_Size` unchanged; otherwise it adds exactly
the new pair, increments `m_Size` by one, and returns `true`. -/
theorem c10_insert_contract (hashFn : GValue → Nat) (key value : GValue)
    (d : GraceDictionary) (hinv : DictInv hashFn d)
    (hhash : ∀ k1 k2 : GValue, valueEq k1 k2 = true → hashFn k1 = hashFn k2) :
    ∃ flag d2, d.insert hashFn key value = some (flag, d2) ∧
      (hasKeyB key d.cells = true →
        flag = false ∧ d2.mSize = d.mSize ∧
        (dictPairs d2.cells).Perm (dictPairs d.cells)) ∧
      (hasKeyB key d.cells = false →
        flag = true ∧ d2.mSize = d.mSize + 1 ∧
        (dictPairs d2.cells).Perm ((key, value) :: dictPairs d.cells)) := by
  have hn : 0 < d.cells.length := by
    have := hinv.capacity8
    omega
  rcases hgrow : decide (4 * d.mSize > 3 * d.cells.length) with hgf | hgt
  case false =>
    have hngrow : ¬ (4 * d.mSize > 3 * d.cells.length) := of_decide_eq_false hgrow
    have hocc : occCount d.cells < d.cells.length := hinv.sizeEq ▸ hinv.sizeLt
    obtain ⟨hpres, habs⟩ :=
      insertAfterGrow_spec hashFn key value d hn hocc hinv.chain hhash
    cases hkey : hasKeyB key d.cells with
    | true =>
        refine ⟨false, d, ?_, ?_, ?_⟩
        · unfold GraceDictionary.insert
          rw [if_neg hngrow]
          exact hpres hkey
        · intro _
          exact ⟨rfl, rfl, List.Perm.refl _⟩
        · intro hcontra
          exact Bool.noConfusion hcontra
    | false =>
        obtain ⟨pos, c, hgc, hcfree, _, heq⟩ := habs hkey
        refine ⟨true, { cells := d.cells.set pos (.occupied key value)
                        mSize := d.mSize + 1 }, ?_, ?_, ?_⟩
        · unfold GraceDictionary.insert
          rw [if_neg hngrow]
          exact heq
        · intro hcontra
          exact Bool.noConfusion hcontra
        · intro _
          exact ⟨rfl, rfl, dictPairs_set_free d.cells pos c key value hgc hcfree⟩
  case true =>
    have hdogrow : 4 * d.mSize > 3 * d.cells.length := of_decide_eq_true hgrow
    obtain ⟨cs, hre, hlen, hnt, hchain, hocc, hpairs⟩ :=
      rehash_spec hashFn (d.cells ++ List.replicate d.cells.length .neverUsed)
    have hpairsGrown : (dictPairs (d.cells ++ List.replicate d.cells.length
        DictCell.neverUsed)) = dictPairs d.cells := by
      rw [dictPairs_append, dictPairs_replicate_neverUsed, List.append_nil]
    have hoccGrown : occCount (d.cells ++ List.replicate d.cells.length
        DictCell.neverUsed) = occCount d.cells := by
      rw [occCount_append, occCount_replicate_neverUsed]
      omega
    set d1 : GraceDictionary := { cells := cs, mSize := d.mSize } with hd1
    have hn1 : 0 < d1.cells.length := by
      have : d1.cells.length = 2 * d.cells.length := by
        rw [hd1, hlen, List.length_append, List.length_replicate]
        omega
      omega
    have hocc1 : occCount d1.cells < d1.cells.length := by
      have h1 : occCount d1.cells = d.mSize := by
        rw [hd1]
        rw [hocc, hoccGrown, ← hinv.sizeEq]
      have h2 : d1.cells.length = 2 * d.cells.length := by
        rw [hd1, hlen, List.length_append, List.length_replicate]
        omega
      have := hinv.sizeLt
      omega
    have hkey1 : hasKeyB key d1.cells = hasKeyB key d.cells := by
      rw [hd1]
      unfold hasKeyB
      rw [any_eq_of_perm _ hpairs, hpairsGrown]
    obtain ⟨hpres, habs⟩ :=
      insertAfterGrow_spec hashFn key value d1 hn1 hocc1 hchain hhash
    cases hkey : hasKeyB key d.cells with
    | true =>
        refine ⟨false, d1, ?_, ?_, ?_⟩
        · unfold GraceDictionary.insert
          rw [if_pos hdogrow, hre]
          exact hpres (hkey1.trans hkey)
        · intro _
          refine ⟨rfl, rfl, ?_⟩
          rw [hd1]
          exact hpairs.trans (hpairsGrown ▸ List.Perm.refl _)
        · intro hcontra
          exact Bool.noConfusion hcontra
    | false =>
        obtain ⟨pos, c, hgc, hcfree, _, heq⟩ := habs (hkey1.trans hkey)
        refine ⟨true, { cells := d1.cells.set pos (.occupied key value)
                        mSize := d1.mSize + 1 }, ?_, ?_, ?_⟩
        · unfold GraceDictionary.insert
          rw [if_pos hdogrow, hre]
          exact heq
        · intro hcontra
          exact Bool.noConfusion hcontra
        · intro _
          refine ⟨rfl, rfl, ?_⟩
          refine (dictPairs_set_free d1.cells pos c key value hgc hcfree).trans ?_
          refine List.Perm.cons (key, value) ?_
          rw [hd1]
          exact hpairs.trans (hpairsGrown ▸ List.Perm.refl _)

/-- The invariant holds for a freshly constructed dictionary. -/
theorem dictInv_empty (hashFn : GValue → Nat) :
    DictInv hashFn GraceDictionary.empty :=
  ⟨by decide, by decide, by decide, noTombP_replicate 8, chainP_replicate hashFn 8⟩

/-- `Insert` preserves the reachable-state invariant, so `DictInv` does
describe every dictionary constructible through the exposed operations. -/
theorem dictInv_insert_preserved (hashFn : GValue → Nat) (key value : GValue)
    (d : GraceDictionary) (flag : Bool) (d2 : GraceDictionary)
    (hinv : DictInv hashFn d)
    (hhash : ∀ k1 k2 : GValue, valueEq k1 k2 = true → hashFn k1 = hashFn k2)
    (hres : d.insert hashFn key value = some (flag, d2)) :
    DictInv hashFn d2 := by
  have hn : 0 < d.cells.length := by
    have := hinv.capacity8
    omega
  rcases Nat.lt_or_ge (3 * d.cells.length) (4 * d.mSize) with hdogrow | hngrow
  · -- growth path
    obtain ⟨cs, hre, hlen, hnt, hchain, hocc, hpairs⟩ :=
      rehash_spec hashFn (d.cells ++ List.replicate d.cells.length .neverUsed)
    have hlen2 : cs.length = 2 * d.cells.length := by
      rw [hlen, List.length_append, List.length_replicate]
      omega
    have hoccGrown : occCount (d.cells ++ List.replicate d.cells.length
        DictCell.neverUsed) = occCount d.cells := by
      rw [occCount_append, occCount_replicate_neverUsed]
      omega
    have hsize1 : occCount cs = d.mSize := by
      rw [hocc, hoccGrown, ← hinv.sizeEq]
    have hn1 : 0 < ({ cells := cs, mSize := d.mSize } : GraceDictionary).cells.length := by
      show 0 < cs.length
      omega
    have hocc1 : occCount ({ cells := cs, mSize := d.mSize } : GraceDictionary).cells <
        ({ cells := cs, mSize := d.mSize } : GraceDictionary).cells.length := by
      show occCount cs < cs.length
      rw [hsize1, hlen2]
      have := hinv.sizeLt
      omega
    obtain ⟨hpres, habs⟩ :=
      insertAfterGrow_spec hashFn key value { cells := cs, mSize := d.mSize }
        hn1 hocc1 hchain hhash
    dsimp only at hpres habs
    have hres1 : insertAfterGrow hashFn key value { cells := cs, mSize := d.mSize }
        = some (flag, d2) := by
      unfold GraceDictionary.insert at hres
      rw [if_pos (by omega), hre] at hres
      exact hres
    cases hkey : hasKeyB key cs with
    | true =>
        rw [hpres hkey] at hres1
        have h1 := Option.some.inj hres1
        have hd2 : ({ cells := cs, mSize := d.mSize } : GraceDictionary) = d2 :=
          congrArg Prod.snd h1
        subst hd2
        refine ⟨?_, hsize1.symm, ?_, hnt, hchain⟩
        · show 8 ≤ cs.length
          have := hinv.capacity8
          omega
        · show d.mSize < cs.length
          rw [hlen2]
          have := hinv.sizeLt
          omega
    | false =>
        obtain ⟨pos, c, hgc, hcfree, hpre, heq⟩ := habs hkey
        rw [heq] at hres1
        have h1 := Option.some.inj hres1
        have hd2 : ({ cells := cs.set pos (.occupied key value)
                      mSize := d.mSize + 1 } : GraceDictionary) = d2 :=
          congrArg Prod.snd h1
        subst hd2
        refine ⟨?_, ?_, ?_, noTomb_set_occ cs pos key value hnt,
          chainP_set_free hashFn cs pos key value c hgc hcfree hchain hpre⟩
        · show 8 ≤ (cs.set pos (DictCell.occupied key value)).length
          rw [List.length_set, hlen2]
          have := hinv.capacity8
          omega
        · show d.mSize + 1 = occCount (cs.set pos (DictCell.occupied key value))
          rw [occCount_set_free cs pos c key value hgc hcfree, hsize1]
        · show d.mSize + 1 < (cs.set pos (DictCell.occupied key value)).length
          rw [List.length_set, hlen2]
          have := hinv.sizeLt
          omega
  · -- no growth
    have hocc : occCount d.cells < d.cells.length := hinv.sizeEq ▸ hinv.sizeLt
    obtain ⟨hpres, habs⟩ :=
      insertAfterGrow_spec hashFn key value d hn hocc hinv.chain hhash
    have hres1 : insertAfterGrow hashFn key value d = some (flag, d2) := by
      unfold GraceDictionary.insert at hres
      rw [if_neg (by omega)] at hres
      exact hres
    cases hkey : hasKeyB key d.cells with
    | true =>
        rw [hpres hkey] at hres1
        have h1 := Option.some.inj hres1
        have hd2 : d = d2 := congrArg Prod.snd h1
        subst hd2
        exact hinv
    | false =>
        obtain ⟨pos, c, hgc, hcfree, hpre, heq⟩ := habs hkey
        rw [heq] at hres1
        have h1 := Option.some.inj hres1
        have hd2 : ({ cells := d.cells.set pos (.occupied key value)
                      mSize := d.mSize + 1 } : GraceDictionary) = d2 :=
          congrArg Prod.snd h1
        subst hd2
        refine ⟨?_, ?_, ?_, noTomb_set_occ d.cells pos key value hinv.noTomb,
          chainP_set_free hashFn d.cells pos key value c hgc hcfree hinv.chain hpre⟩
        · show 8 ≤ (d.cells.set pos (DictCell.occupied key value)).length
          rw [List.length_set]
          exact hinv.capacity8
        · show d.mSize + 1 = occCount (d.cells.set pos (DictCell.occupied key value))
          rw [occCount_set_free d.cells pos c key value hgc hcfree, ← hinv.sizeEq]
        · show d.mSize + 1 < (d.cells.set pos (DictCell.occupied key value)).length
          rw [List.length_set]
          have h8 := hinv.capacity8
          omega

/-- C10 witness: the contract applied to a constant hasher, the empty
dictionary, and the pair `(1, 2)`. -/
theorem c10_insert_contract_witness :
    ∃ flag d2,
      GraceDictionary.empty.insert (fun _ => 0) (.int 1) (.int 2)
        = some (flag, d2) ∧
      (hasKeyB (.int 1) GraceDictionary.empty.cells = true →
        flag = false ∧ d2.mSize = GraceDictionary.empty.mSize ∧
        (dictPairs d2.cells).Perm (dictPairs GraceDictionary.empty.cells)) ∧
      (hasKeyB (.int 1) GraceDictionary.empty.cells = false →
        flag = true ∧ d2.mSize = GraceDictionary.empty.mSize + 1 ∧
        (dictPairs d2.cells).Perm
          ((GValue.int 1, GValue.int 2) :: dictPairs GraceDictionary.empty.cells)) :=
  c10_insert_contract (fun _ => 0) (.int 1) (.int 2) GraceDictionary.empty
    (dictInv_empty (fun _ => 0)) (fun _ _ _ => rfl)


/-! ## Compiler-state helper lemmas (shared by the C2, C6 and C9 proofs) -/

/-- `find?` by key commutes with the key-preserving map that
`CState.updateFunction` performs. -/
lemma find?_key_map (l : List (Int × VMFunction)) (h : Int)
    (g : VMFunction → VMFunction) :
    (l.map fun nf => if nf.1 == h then (nf.1, g nf.2) else nf).find?
        (fun p => p.1 == h) =
      (l.find? (fun p => p.1 == h)).map
        (fun nf => if nf.1 == h then (nf.1, g nf.2) else nf) := by
  induction l with
  | nil => rfl
  | cons a l ih =>
    cases ha : (a.1 == h) with
    | true =>
      simp only [List.map_cons, List.find?_cons, ha, if_true, Option.map_some']
    | false =>
      simp only [List.map_cons, List.find?_cons, ha, Bool.false_eq_true, if_false, ih]

/-- `lastFunction` after `updateFunction` at the last-function key. -/
lemma lastFunction_updateFunction (s : CState) (h : Int) (f0 : VMFunction)
    (g : VMFunction → VMFunction)
    (hh : s.lastFunctionHash = some h) (hf : s.lastFunction = some f0) :
    (s.updateFunction h g).lastFunction = some (g f0) := by
  unfold CState.lastFunction at hf
  rw [hh] at hf
  rcases Option.map_eq_some'.mp hf with ⟨pr, hpr, hpr2⟩
  have hkey : (pr.1 == h) = true := by
    have h1 := List.find?_some hpr
    simpa using h1
  unfold CState.lastFunction CState.updateFunction
  dsimp only
  rw [hh]
  dsimp only
  rw [find?_key_map, hpr]
  have hkey2 : pr.1 = h := by simpa using hkey
  simp [hkey2, hpr2]

/-- A `lastFunction` value exposes the hash and a successful lookup. -/
lemma lastFunctionHash_of_lastFunction (s : CState) (f : VMFunction)
    (hf : s.lastFunction = some f) :
    ∃ h, s.lastFunctionHash = some h ∧
      (s.functions.find? (fun p => p.1 == h)).isSome = true := by
  unfold CState.lastFunction at hf
  cases e : s.lastFunctionHash with
  | none => rw [e] at hf; simp at hf
  | some h =>
    rw [e] at hf
    refine ⟨h, rfl, ?_⟩
    rcases Option.map_eq_some'.mp hf with ⟨pr, hpr, _⟩
    simp [hpr]

/-- `pushOp` appends `(op, line)` to the current function's op list. -/
lemma pushOp_lastFunction (s : CState) (f : VMFunction) (op : Ops) (line : Int)
    (hf : s.lastFunction = some f) :
    (pushOp op line s).lastFunction
      = some { f with opList := f.opList ++ [(op, line)] } := by
  rcases lastFunctionHash_of_lastFunction s f hf with ⟨h, hh, hsome⟩
  unfold pushOp
  rw [hh]
  dsimp only
  rw [if_pos hsome]
  exact lastFunction_updateFunction s h f _ hh hf

/-- `pushConstant` appends `v` to the current function's constant list. -/
lemma pushConstant_lastFunction (s : CState) (f : VMFunction) (v : GValue)
    (hf : s.lastFunction = some f) :
    (pushConstant v s).lastFunction
      = some { f with constantList := f.constantList ++ [v] } := by
  rcases lastFunctionHash_of_lastFunction s f hf with ⟨h, hh, hsome⟩
  unfold pushConstant
  rw [hh]
  dsimp only
  rw [if_pos hsome]
  exact lastFunction_updateFunction s h f _ hh hf

/-- `pushOp` touches only the function table. -/
lemma pushOp_frame (op : Ops) (line : Int) (s : CState) :
    (pushOp op line s).previous = s.previous ∧
    (pushOp op line s).hadError = s.hadError ∧
    (pushOp op line s).reported = s.reported := by
  unfold pushOp CState.updateFunction
  cases s.lastFunctionHash <;> dsimp only
  · exact ⟨rfl, rfl, rfl⟩
  · split <;> exact ⟨rfl, rfl, rfl⟩

/-- `pushConstant` touches only the function table. -/
lemma pushConstant_frame (v : GValue) (s : CState) :
    (pushConstant v s).previous = s.previous ∧
    (pushConstant v s).hadError = s.hadError ∧
    (pushConstant v s).reported = s.reported := by
  unfold pushConstant CState.updateFunction
  cases s.lastFunctionHash <;> dsimp only
  · exact ⟨rfl, rfl, rfl⟩
  · split <;> exact ⟨rfl, rfl, rfl⟩


/-- An error through `Compiler::Message` with a real token leaves the
had-error flag set, provided panic mode implies it was already set. -/
lemma message_error_hadError (s : CState) (tok : Option Token) (m : String)
    (htok : tok.isSome = true)
    (himp : s.panicMode = true → s.hadError = true) :
    (message s tok m .error).hadError = true := by
  unfold message
  cases hp : s.panicMode with
  | true => exact himp hp
  | false =>
    cases tok with
    | none => simp at htok
    | some t => rfl

/-- `Compiler::Advance` from a panic-free state: the context is unchanged,
the previous token becomes the old current one, and panic mode can only arm
together with the had-error flag (the `Error`-token report). -/
lemma advance_clean (s : CState) (hp : s.panicMode = false) :
    (advance s).context = s.context ∧
    (advance s).previous = s.current ∧
    ((advance s).panicMode = true → (advance s).hadError = true) := by
  unfold advance CState.scanToken
  cases s.tokens with
  | nil =>
    dsimp only
    rw [if_neg (by decide : ¬(eofToken.type = TokenType.Error))]
    exact ⟨rfl, rfl, fun h => absurd h (by simp [hp])⟩
  | cons t ts =>
    dsimp only
    by_cases he : t.type = .Error
    · rw [if_pos he]
      unfold messageAtCurrent message
      dsimp only
      rw [if_neg (by simp [hp] : ¬(CState.panicMode { s with tokens := ts, previous := s.current, current := some t } = true))]
      exact ⟨rfl, rfl, fun _ => rfl⟩
    · rw [if_neg he]
      exact ⟨rfl, rfl, fun h => absurd h (by simp [hp])⟩

/-- `Compiler::Advance` never clears the had-error flag. -/
lemma advance_hadError (s : CState) (h : s.hadError = true) :
    (advance s).hadError = true := by
  unfold advance CState.scanToken
  cases s.tokens with
  | nil =>
    dsimp only
    rw [if_neg (by decide : ¬(eofToken.type = TokenType.Error))]
    exact h
  | cons t ts =>
    dsimp only
    by_cases he : t.type = .Error
    · rw [if_pos he]
      unfold messageAtCurrent message
      dsimp only
      split
      · exact h
      · rfl
    · rw [if_neg he]
      exact h

/-- The loop of `Compiler::Synchronize` never clears the had-error flag. -/
lemma syncLoop_hadError (n : Nat) (s : CState) (h : s.hadError = true) :
    (syncLoop n s).hadError = true := by
  induction n generalizing s with
  | zero => exact h
  | succ n ih =>
    unfold syncLoop
    cases hc : s.current with
    | none => exact h
    | some cur =>
      dsimp only
      split
      · exact h
      · split
        · exact h
        · split
          · exact h
          · exact ih _ (advance_hadError s h)

/-- `Compiler::Synchronize` never clears the had-error flag. -/
lemma synchronize_hadError (s : CState) (h : s.hadError = true) :
    (synchronize s).hadError = true := by
  unfold synchronize
  exact syncLoop_hadError _ _ h

/-- The panic tail of `Compiler::Declaration` never clears the had-error
flag. -/
lemma declTail_hadError (s2 : CState) (h : s2.hadError = true) :
    (if s2.panicMode then synchronize s2 else s2).hadError = true := by
  split
  · exact synchronize_hadError s2 h
  · exact h

/-- `Compiler::Match` against a token of a different type fails and leaves
the state unchanged. -/
lemma matchTok_neg (s : CState) (t : Token) (ty : TokenType)
    (hcur : s.current = some t) (hne : t.type ≠ ty) :
    matchTok ty s = (false, s) := by
  unfold matchTok check
  rw [hcur]
  dsimp only
  rw [if_neg (by simp [hne] : ¬((t.type == ty) = true))]

/-- `Compiler::Match` against the current token's own type succeeds and
advances. -/
lemma matchTok_pos (s : CState) (t : Token) (hcur : s.current = some t) :
    matchTok t.type s = (true, advance s) := by
  unfold matchTok check
  rw [hcur]
  dsimp only
  rw [if_pos (by simp : ((t.type == t.type) = true))]


/-! ## Claim C2 — implicit `Return` at the end of a function -/

/-- C2 counterexample: `func main(): end` is accepted by the compiler
(no error, no diagnostic, not stuck) yet `main`'s emitted op list is empty —
in particular it does not end with a `Return` opcode, because
`Compiler::FuncDeclaration` skips the implicit-return epilogue exactly when
the function just compiled is `main`. -/
theorem c2_counterexample :
    (compileTokens 100 grHash c2Prog).hadError = false ∧
    (compileTokens 100 grHash c2Prog).stuck = false ∧
    ((compileTokens 100 grHash c2Prog).functions.map fun p =>
        (p.2.name, endsWithReturn p.2.opList)) = [("main", false)] :=
  ⟨rfl, rfl, rfl⟩

/-- C2 (amended): for a function OTHER THAN `main` compiled without a
value-returning `return` statement, `Compiler::FuncDeclaration`'s epilogue
appends `LoadConstant null; Return` to the function's op list, which
therefore ends with an explicit `Return`; `main` is excluded by the
epilogue's guard (compiler.cpp lines 326–331). -/
theorem c2_implicit_return (s : CState) (f : VMFunction)
    (hf : s.lastFunction = some f)
    (hret : s.functionHadReturn = false)
    (hmain : f.name ≠ "main") :
    ∃ g, (funcDeclEpilogue s).lastFunction = some g ∧
      g.opList = f.opList ++
        [(Ops.LoadConstant, s.prev.line), (Ops.Return, s.prev.line)] ∧
      endsWithReturn g.opList = true := by
  have hname : lastFunctionName s = some f.name := by
    unfold lastFunctionName
    rw [hf]
    rfl
  have hcond : (!s.functionHadReturn) = true ∧ lastFunctionName s ≠ some "main" := by
    constructor
    · rw [hret]
      rfl
    · rw [hname]
      intro hc
      exact hmain (Option.some.inj hc)
  simp only [funcDeclEpilogue]
  rw [if_pos hcond]
  have hf1 : (pushConstant .null s).lastFunction
      = some { f with constantList := f.constantList ++ [GValue.null] } :=
    pushConstant_lastFunction s f .null hf
  have hprev1 : (pushConstant .null s).previous = s.previous :=
    (pushConstant_frame .null s).1
  have hline1 : (pushConstant .null s).prev = s.prev := by
    show (pushConstant .null s).previous.getD eofToken = s.previous.getD eofToken
    rw [hprev1]
  rw [hline1]
  have hf2 := pushOp_lastFunction (pushConstant .null s) _ .LoadConstant
    s.prev.line hf1
  have hprev2 : (pushOp .LoadConstant s.prev.line (pushConstant .null s)).previous
      = s.previous :=
    ((pushOp_frame .LoadConstant s.prev.line (pushConstant .null s)).1).trans hprev1
  have hline2 : (pushOp .LoadConstant s.prev.line (pushConstant .null s)).prev
      = s.prev := by
    show (pushOp .LoadConstant s.prev.line (pushConstant .null s)).previous.getD
        eofToken = s.previous.getD eofToken
    rw [hprev2]
  rw [hline2]
  have hf3 := pushOp_lastFunction
    (pushOp .LoadConstant s.prev.line (pushConstant .null s)) _ .Return
    s.prev.line hf2
  refine ⟨_, hf3, ?_, ?_⟩
  · show (f.opList ++ [(Ops.LoadConstant, s.prev.line)]) ++ [(Ops.Return, s.prev.line)]
      = f.opList ++ [(Ops.LoadConstant, s.prev.line), (Ops.Return, s.prev.line)]
    rw [List.append_assoc]
    rfl
  · show endsWithReturn ((f.opList ++ [(Ops.LoadConstant, s.prev.line)])
      ++ [(Ops.Return, s.prev.line)]) = true
    unfold endsWithReturn
    rw [List.getLast?_concat]
    rfl

/-- C2 witness: the epilogue for a just-compiled empty function `foo`
appends `LoadConstant null; Return`. -/
theorem c2_implicit_return_witness :
    ∃ g, (funcDeclEpilogue { tokens := [], hashFn := grHash,
                             previous := some (tokOf .End "end"),
                             functions :=
                               [(2, { name := "foo", hash := 2, arity := 0,
                                      line := 1 })],
                             lastFunctionHash := some 2 }).lastFunction
        = some g ∧
      g.opList = ([] : List (Ops × Int)) ++
        [(Ops.LoadConstant, 1), (Ops.Return, 1)] ∧
      endsWithReturn g.opList = true :=
  c2_implicit_return _ { name := "foo", hash := 2, arity := 0, line := 1 }
    rfl rfl (by decide)

/-! ## Claim C5 — multiple errors in one run, one per panic window -/

/-- C5: compiling `func main(): var 1 = 2; break; end` — two independent
erroneous statements separated by a `;` boundary — reports exactly the two
first-in-window errors (`var` missing its identifier, `break` outside a
loop), suppresses exactly one further diagnostic inside the first panic
window, sets the had-error flag, and finishes the whole token stream
without getting stuck: panic-mode synchronization recovers at the `;` so
compilation continues to the second erroneous statement. -/
theorem c5_two_errors_reported :
    (compileTokens 100 grHash c5Prog).reported =
      ["Expected identifier after `var`",
       "`break` only allowed inside `for` and `while` loops"] ∧
    (compileTokens 100 grHash c5Prog).suppressed = 1 ∧
    (compileTokens 100 grHash c5Prog).hadError = true ∧
    (compileTokens 100 grHash c5Prog).stuck = false :=
  ⟨rfl, rfl, rfl, rfl⟩


/-! ## Claim C6 — top-level forms -/

/-- C6 counterexample: the source `func main(): end assert(true);` puts an
`assert` statement at top level, yet the compiler accepts it with no error
and no diagnostic and emits the assert's opcodes — `Compiler::Declaration`
handles `assert` inline without the top-level context check that `var`,
`final`, `break` and `Statement` perform. -/
theorem c6_counterexample :
    (compileTokens 100 grHash c6Prog).hadError = false ∧
    (compileTokens 100 grHash c6Prog).reported = [] ∧
    (compileTokens 100 grHash c6Prog).stuck = false ∧
    ((compileTokens 100 grHash c6Prog).functions.map fun p =>
        (p.2.name, p.2.opList.map Prod.fst)) =
      [("main", [Ops.LoadConstant, Ops.Assert])] :=
  ⟨rfl, rfl, rfl, rfl⟩

/-- C6 (amended): at top level, outside panic mode, every leading token
other than `class`, `func` and `assert` makes `Compiler::Declaration` set
the had-error flag: `var`, `final` and `break` run into their inline
context checks and everything else falls through to `Compiler::Statement`,
whose top-level check precedes all dispatch.  A top-level `assert`,
however, is compiled without complaint (see the counterexample). -/
theorem c6_top_level_rejected (n : Nat) (s : CState) (t : Token)
    (hctx : s.context = .topLevel) (hp : s.panicMode = false)
    (hcur : s.current = some t)
    (hclass : t.type ≠ .Class) (hfunc : t.type ≠ .Func)
    (hassert : t.type ≠ .Assert) :
    (declaration (n + 2) s).hadError = true := by
  have hbranch : ∀ m : String,
      (messageAtPrevious m .error (advance s)).hadError = true := by
    intro m
    obtain ⟨h1, h2, h3⟩ := advance_clean s hp
    unfold messageAtPrevious
    apply message_error_hadError
    · rw [h2, hcur]
      rfl
    · exact h3
  have hctxAdv : (advance s).context = .topLevel := by
    rw [(advance_clean s hp).1]
    exact hctx
  rw [show n + 2 = (n + 1) + 1 from rfl]
  unfold declaration
  rw [matchTok_neg s t .Class hcur hclass]
  dsimp only
  rw [if_neg Bool.false_ne_true]
  rw [matchTok_neg s t .Func hcur hfunc]
  dsimp only
  rw [if_neg Bool.false_ne_true]
  by_cases hvar : t.type = .Var
  · have hmV : matchTok .Var s = (true, advance s) := by
      rw [← hvar]
      exact matchTok_pos s t hcur
    rw [hmV]
    dsimp only
    rw [if_pos rfl]
    apply declTail_hadError
    unfold varDeclaration
    dsimp only
    rw [if_pos hctxAdv]
    exact hbranch _
  · rw [matchTok_neg s t .Var hcur hvar]
    dsimp only
    rw [if_neg Bool.false_ne_true]
    by_cases hfin : t.type = .Final
    · have hmFi : matchTok .Final s = (true, advance s) := by
        rw [← hfin]
        exact matchTok_pos s t hcur
      rw [hmFi]
      dsimp only
      rw [if_pos rfl]
      apply declTail_hadError
      unfold finalDeclaration
      dsimp only
      rw [if_pos hctxAdv]
      exact hbranch _
    · rw [matchTok_neg s t .Final hcur hfin]
      dsimp only
      rw [if_neg Bool.false_ne_true]
      by_cases hbrk : t.type = .Break
      · have hmB : matchTok .Break s = (true, advance s) := by
          rw [← hbrk]
          exact matchTok_pos s t hcur
        rw [hmB]
        dsimp only
        rw [if_pos rfl]
        apply declTail_hadError
        have hnloop : (advance s).context ≠ .loop := by
          rw [hctxAdv]
          decide
        rw [if_pos hnloop]
        exact hbranch _
      · rw [matchTok_neg s t .Break hcur hbrk]
        dsimp only
        rw [if_neg Bool.false_ne_true]
        rw [matchTok_neg s t .Assert hcur hassert]
        dsimp only
        rw [if_neg Bool.false_ne_true]
        apply declTail_hadError
        unfold statement
        dsimp only
        rw [if_pos hctx]
        unfold messageAtCurrent
        apply message_error_hadError
        · rw [hcur]
          rfl
        · intro hpk
          rw [hp] at hpk
          cases hpk

/-- C6 witness: a top-level `var` token is rejected. -/
theorem c6_top_level_rejected_witness :
    (declaration 2 { tokens := [], current := some (tokOf .Var "var"),
                     hashFn := grHash }).hadError = true :=
  c6_top_level_rejected 0 _ (tokOf .Var "var") rfl rfl rfl
    (by decide) (by decide) (by decide)


/-! ## Claim C9 — `return` inside `main` -/

/-- C9 counterexample: `func main(): while true: return; end end`
(`c9LoopProg`) has a `return` statement inside `main`, yet the compiler
rejects it with "`return` only allowed inside functions" — NOT with
"Cannot return from main function".  Run from `c9WhileState`, the state in
which `Compiler::Statement` receives that program's `while` inside `main`:
`WhileStatement` sets the context to `Loop` for the body, and
`ReturnStatement`'s context check (compiler.cpp 884–887) fires before its
`main`-name check, so only the context message is reported; the whole
`while` statement is then consumed (the final current token is `main`'s
own `end`), with nothing suppressed and no stuck step. -/
theorem c9_counterexample :
    (statement 30 c9WhileState).reported =
      ["`return` only allowed inside functions"] ∧
    (statement 30 c9WhileState).hadError = true ∧
    (statement 30 c9WhileState).suppressed = 0 ∧
    (statement 30 c9WhileState).stuck = false ∧
    (statement 30 c9WhileState).current = some (tokOf .End "end") ∧
    (statement 30 c9WhileState).tokens = [] :=
  ⟨rfl, rfl, rfl, rfl, rfl, rfl⟩

/-- C9 (amended): `Compiler::ReturnStatement` first rejects any `return`
whose immediate context is not a function body — in particular one nested
in a `for`/`while` loop, whatever the enclosing function — with
"`return` only allowed inside functions"; in function context it rejects
`return` exactly when the function being compiled is `main`, with
"Cannot return from main function" and nothing consumed or emitted; and in
any other function a bare `return;` is accepted — it consumes the `;`,
emits `LoadConstant null; Return`, and reports nothing. -/
theorem c9_return_main_rejected (n : Nat) (s : CState) :
    (s.context ≠ .function →
      returnStatement (n + 1) s =
        messageAtPrevious "`return` only allowed inside functions"
          .error s) ∧
    (s.context = .function → lastFunctionName s = some "main" →
      returnStatement (n + 1) s =
        messageAtPrevious "Cannot return from main function" .error s) ∧
    (∀ t f, s.context = .function → lastFunctionName s ≠ some "main" →
      s.current = some t →
      t.type = .Semicolon → s.lastFunction = some f →
      (s.tokens.head?.getD eofToken).type ≠ .Error →
      ∃ g, (returnStatement (n + 1) s).lastFunction = some g ∧
        g.opList = f.opList ++
          [(Ops.LoadConstant, t.line), (Ops.Return, t.line)] ∧
        (returnStatement (n + 1) s).hadError = s.hadError ∧
        (returnStatement (n + 1) s).reported = s.reported) := by
  refine ⟨?_, ?_, ?_⟩
  · intro hnf
    unfold returnStatement
    dsimp only
    rw [if_pos hnf]
  · intro hctx hmain
    have hnctx : ¬(s.context ≠ CompilerContext.function) := by
      rw [hctx]
      simp
    unfold returnStatement
    dsimp only
    rw [if_neg hnctx, if_pos hmain]
  · intro t f hctx hmain hcur htype hf hnx
    have hnctx : ¬(s.context ≠ CompilerContext.function) := by
      rw [hctx]
      simp
    unfold returnStatement
    dsimp only
    rw [if_neg hnctx, if_neg hmain]
    have hmS : matchTok .Semicolon s = (true, advance s) := by
      rw [← htype]
      exact matchTok_pos s t hcur
    rw [hmS]
    dsimp only
    rw [if_pos rfl]
    have hadv : advance s = { s with
          tokens := s.tokens.drop 1,
          previous := some t,
          current := some (s.tokens.head?.getD eofToken) } := by
      unfold advance CState.scanToken
      cases htoks : s.tokens with
      | nil =>
        dsimp only
        rw [if_neg (by decide : ¬(eofToken.type = TokenType.Error))]
        rw [hcur, htoks]
        rfl
      | cons u ts =>
        dsimp only
        rw [htoks] at hnx
        rw [if_neg (by simpa using hnx)]
        rw [hcur]
        rfl
    rw [hadv]
    have hf1 : (CState.lastFunction { s with
          tokens := s.tokens.drop 1,
          previous := some t,
          current := some (s.tokens.head?.getD eofToken) }) = some f := hf
    have hprevadv : (CState.previous { s with
          tokens := s.tokens.drop 1,
          previous := some t,
          current := some (s.tokens.head?.getD eofToken) }) = some t := rfl
    set s1 : CState := { s with
        tokens := s.tokens.drop 1,
        previous := some t,
        current := some (s.tokens.head?.getD eofToken) } with hs1
    have hline1 : (pushConstant .null s1).prev = t := by
      show (pushConstant .null s1).previous.getD eofToken = t
      rw [(pushConstant_frame .null s1).1, hprevadv]
      rfl
    rw [hline1]
    have hf2 : (pushConstant .null s1).lastFunction
        = some { f with constantList := f.constantList ++ [GValue.null] } :=
      pushConstant_lastFunction s1 f .null hf1
    have hf3 := pushOp_lastFunction (pushConstant .null s1) _ .LoadConstant
      t.line hf2
    have hline2 : (pushOp .LoadConstant t.line (pushConstant .null s1)).prev
        = t := by
      show (pushOp .LoadConstant t.line
        (pushConstant .null s1)).previous.getD eofToken = t
      rw [(pushOp_frame .LoadConstant t.line (pushConstant .null s1)).1,
        (pushConstant_frame .null s1).1, hprevadv]
      rfl
    rw [hline2]
    have hf4 := pushOp_lastFunction
      (pushOp .LoadConstant t.line (pushConstant .null s1)) _ .Return
      t.line hf3
    refine ⟨_, hf4, ?_, ?_, ?_⟩
    · show (f.opList ++ [(Ops.LoadConstant, t.line)]) ++ [(Ops.Return, t.line)]
        = f.opList ++ [(Ops.LoadConstant, t.line), (Ops.Return, t.line)]
      rw [List.append_assoc]
      rfl
    · rw [(pushOp_frame .Return t.line _).2.1,
        (pushOp_frame .LoadConstant t.line _).2.1,
        (pushConstant_frame .null s1).2.1]
    · rw [(pushOp_frame .Return t.line _).2.2,
        (pushOp_frame .LoadConstant t.line _).2.2,
        (pushConstant_frame .null s1).2.2]

/-- C9 witness: a `return` matched inside a loop body is rejected with the
context message, a `return` while compiling `main` in function context is
rejected with "Cannot return from main function", and a bare `return;`
while compiling `foo` appends `LoadConstant null; Return` without any
error. -/
theorem c9_return_main_rejected_witness :
    (returnStatement 1 c9LoopState =
      messageAtPrevious "`return` only allowed inside functions" .error
        c9LoopState) ∧
    (returnStatement 1 c9MainState =
      messageAtPrevious "Cannot return from main function" .error
        c9MainState) ∧
    (∃ g, (returnStatement 1 c9FooState).lastFunction = some g ∧
      g.opList = ([] : List (Ops × Int)) ++
        [(Ops.LoadConstant, 1), (Ops.Return, 1)] ∧
      (returnStatement 1 c9FooState).hadError = false ∧
      (returnStatement 1 c9FooState).reported = []) := by
  refine ⟨?_, ?_, ?_⟩
  · exact (c9_return_main_rejected 0 c9LoopState).1 (by decide)
  · exact (c9_return_main_rejected 0 c9MainState).2.1 rfl rfl
  · exact (c9_return_main_rejected 0 c9FooState).2.2 (tokOf .Semicolon ";")
      { name := "foo", hash := 2, arity := 0, line := 1 }
      rfl (by decide) rfl rfl rfl (by decide)

end Grace

